import Mathlib

/-!
# UK Nuclear Simulator: cipher codec, protocol codec and connection handler

A shallow embedding of `nuclearControl.c` and `missileSilo.c`.

Conventions of the embedding.

* A byte is a `Nat`; a C string is the list of its bytes, and a `char` buffer is
  the list of all its bytes, terminator and padding included.  `cstr` reads the
  C string a buffer holds (the bytes before the first NUL).
* `isalpha`, `isupper`, `isspace`, `isdigit` are those of the "C" locale (no file
  of the repository calls `setlocale`).
* Integer widths are those of LP64: `long` has 64 bits, `int` has 32 bits and the
  conversion of an out-of-range `long` to `int` wraps modulo `2^32`.
* A call of `send` returns a count, returns -1, or raises SIGPIPE, which
  terminates the process (`SendOutcome`).
* `fields_found`, `threats_detected` and `commands_issued` are C `int`s that only
  ever grow by one per field or message; they are unbounded integers here (a
  message has fewer than 1024 bytes, so `fields_found` cannot wrap).
-/

namespace NuclearSim

/-! ## Bytes, strings and buffers -/

/-- Bytes of a string literal. -/
def str (s : String) : List Nat := s.toList.map Char.toNat

/-- The C string stored in a buffer: the bytes before the first NUL (`strlen` of
them). -/
def cstr (buf : List Nat) : List Nat := buf.takeWhile (fun c => c != 0)

def CAESAR_SHIFT : Nat := 3
def BUFFER_SIZE : Nat := 1024
def PORT_SILO : Nat := 8081
def PORT_SUB : Nat := 8082
def PORT_RADAR : Nat := 8083
def PORT_SAT : Nat := 8084
def MAX_CLIENTS : Nat := 4

/-- `size_t` arithmetic: `len - 1` on a 64-bit unsigned. -/
def size_pred (len : Nat) : Nat := (len + 2 ^ 64 - 1) % 2 ^ 64

def isupper (c : Nat) : Bool := decide (65 ≤ c) && decide (c ≤ 90)
def islower (c : Nat) : Bool := decide (97 ≤ c) && decide (c ≤ 122)
def isalpha (c : Nat) : Bool := isupper c || islower c
def isdigit (c : Nat) : Bool := decide (48 ≤ c) && decide (c ≤ 57)
def isspace (c : Nat) : Bool := c == 32 || (decide (9 ≤ c) && decide (c ≤ 13))

/-! ## Cipher codec (`caesar_encrypt`, `caesar_decrypt`) -/

/-- Body of the loop of `caesar_encrypt` at one byte (every intermediate value is
a non-negative `int`). -/
def encrypt_char (c : Nat) : Nat :=
  if isalpha c then
    let base := if isupper c then 65 else 97
    (c - base + CAESAR_SHIFT) % 26 + base
  else c

/-- Body of the loop of `caesar_decrypt` at one byte.  The arithmetic is that of
`int`: `c - base - CAESAR_SHIFT` may be negative, and `+ 26` makes the dividend
of `%` non-negative, where C's `%` and `Int`'s agree. -/
def decrypt_char (c : Nat) : Nat :=
  if isalpha c then
    let base : Int := if isupper c then 65 else 97
    (((c : Int) - base - CAESAR_SHIFT + 26) % 26 + base).toNat
  else c

/-- The `for` loop shared by both functions: `n` is the number of iterations the
bound `i < len - 1` still allows; the loop also stops at the terminating NUL
(the end of the list, or a `0` byte inside it). -/
def caesar_loop (f : Nat → Nat) : List Nat → Nat → List Nat
  | [], _ => []
  | _ :: _, 0 => []
  | c :: cs, n + 1 => if c = 0 then [] else f c :: caesar_loop f cs n

/-- The result of `memset(out, 0, len)` followed by the writes `out[i] = ...`
for `i = 0 .. written.length - 1`. -/
def fill_buffer (written : List Nat) (len : Nat) : List Nat :=
  written ++ List.replicate (len - written.length) 0

/-- `caesar_encrypt(plaintext, ciphertext, len)`: the content of `ciphertext`
afterwards. -/
def caesar_encrypt (plaintext : List Nat) (len : Nat) : List Nat :=
  fill_buffer (caesar_loop encrypt_char plaintext (size_pred len)) len

/-- `caesar_decrypt(ciphertext, plaintext, len)`: the content of `plaintext`
afterwards. -/
def caesar_decrypt (ciphertext : List Nat) (len : Nat) : List Nat :=
  fill_buffer (caesar_loop decrypt_char ciphertext (size_pred len)) len

/-! ### The reference shift cipher of the specification -/

/-- The letter `k` places further in the alphabet that starts at byte `a`,
wrapping modulo 26. -/
def shift_letter (a : Nat) (k : Int) (c : Nat) : Nat :=
  a + (((c : Int) - a + k) % 26).toNat

/-- Reference cipher: letters are shifted by `k` within their own case, every
other byte is unchanged. -/
def shift_cipher (k : Int) (text : List Nat) : List Nat :=
  text.map fun c =>
    if 65 ≤ c ∧ c ≤ 90 then shift_letter 65 k c
    else if 97 ≤ c ∧ c ≤ 122 then shift_letter 97 k c
    else c

/-! ## libc functions used by the protocol codec -/

/-- The loop behind `strtok(copy, delim)`, `strtok(NULL, delim)`, ...: `cur` is
the token being read.  Delimiters before a token are skipped, so no token is
empty. -/
def strtok_loop (delim : Nat) : List Nat → List Nat → List (List Nat)
  | [], cur => if cur = [] then [] else [cur]
  | c :: cs, cur =>
    if c = delim then
      if cur = [] then strtok_loop delim cs [] else cur :: strtok_loop delim cs []
    else strtok_loop delim cs (cur ++ [c])

/-- The tokens that the successive calls of `strtok` on the C string `s` return
before it returns `NULL`. -/
def strtok_all (s : List Nat) (delim : Nat) : List (List Nat) :=
  strtok_loop delim s []

/-- `strchr(s, c)` for `c != 0`: the suffix of `s` that starts at the first `c`,
`none` for `NULL`. -/
def strchr (s : List Nat) (c : Nat) : Option (List Nat) :=
  match s.dropWhile (fun b => b != c) with
  | [] => none
  | r :: rs => some (r :: rs)

/-- `strncpy(dst, src, n)`: the first `n` bytes of `dst` become the bytes of the
C string `src`, cut at `n` and padded with NULs up to `n`; the rest of `dst` is
untouched. -/
def strncpy (dst src : List Nat) (n : Nat) : List Nat :=
  (src.take n ++ List.replicate (n - src.length) 0) ++ dst.drop n

def LONG_MAX : Int := 2 ^ 63 - 1
def LONG_MIN : Int := -(2 ^ 63)

/-- Value of a run of decimal digits, most significant first. -/
def digits_value (ds : List Nat) : Nat :=
  ds.foldl (fun acc d => 10 * acc + (d - 48)) 0

/-- `strtol(s, &endptr, 10)`: the returned `long` and the string at `endptr`.
White space is skipped, one sign is read, then the longest run of digits; with
no digit the result is `0` and `endptr` is `s`; a value out of range is
`LONG_MAX` or `LONG_MIN`. -/
def strtol (s : List Nat) : Int × List Nat :=
  let s1 := s.dropWhile isspace
  let neg := s1.head? == some 45
  let s2 := if s1.head? == some 45 || s1.head? == some 43 then s1.drop 1 else s1
  let ds := s2.takeWhile isdigit
  if ds = [] then (0, s)
  else
    let v : Int := if neg then -(digits_value ds : Int) else (digits_value ds : Int)
    (max LONG_MIN (min LONG_MAX v), s2.dropWhile isdigit)

/-- The conversion `(int)` of a `long`. -/
def to_int (v : Int) : Int := (v + 2 ^ 31) % 2 ^ 32 - 2 ^ 31

/-! ## Protocol codec of the control node (`parse_intel`) -/

/-- `Intel`: the three `char` arrays are buffers of 20, 20, 256 and 50 bytes. -/
structure Intel where
  source : List Nat
  type : List Nat
  data : List Nat
  threat_level : Int
  location : List Nat
  deriving DecidableEq

/-- `memset(intel, 0, sizeof(Intel))`. -/
def Intel.zero : Intel :=
  { source := List.replicate 20 0, type := List.replicate 20 0,
    data := List.replicate 256 0, threat_level := 0,
    location := List.replicate 50 0 }

def KEY_SOURCE : List Nat := str "source"
def KEY_TYPE : List Nat := str "type"
def KEY_DATA : List Nat := str "data"
def KEY_THREAT_LEVEL : List Nat := str "threat_level"
def KEY_LOCATION : List Nat := str "location"

/-- One iteration of the `while (token)` loop of `parse_intel` on `token`, from
the content of `*intel` and `fields_found`: `error` when the iteration executes
`return 0` (with the content of `*intel` at that point), `ok` with the new
content and count otherwise.  `colon == token` is an empty key and `!colon[1]`
an empty value. -/
def parse_intel_field (token : List Nat) (intel : Intel) (fields_found : Int) :
    Except Intel (Intel × Int) :=
  match strchr token 58 with
  | none => .error intel
  | some colon =>
    let key := token.takeWhile (fun b => b != 58)
    let value := colon.drop 1
    if key = [] ∨ value = [] then .error intel
    else if key = KEY_SOURCE then
      .ok ({ intel with source := strncpy intel.source value 19 }, fields_found + 1)
    else if key = KEY_TYPE then
      .ok ({ intel with type := strncpy intel.type value 19 }, fields_found + 1)
    else if key = KEY_DATA then
      .ok ({ intel with data := strncpy intel.data value 255 }, fields_found + 1)
    else if key = KEY_THREAT_LEVEL then
      let r := strtol value
      let intel1 := { intel with threat_level := to_int r.1 }
      if r.2 ≠ [] ∨ intel1.threat_level < 0 then .error intel1
      else .ok (intel1, fields_found + 1)
    else if key = KEY_LOCATION then
      .ok ({ intel with location := strncpy intel.location value 49 }, fields_found + 1)
    else .ok (intel, fields_found)

/-- The `while (token)` loop of `parse_intel` over the remaining tokens, then
`return fields_found == 5`: the returned `int` and the final content of
`*intel`. -/
def parse_intel_loop : List (List Nat) → Intel → Int → Int × Intel
  | [], intel, fields_found => (if fields_found = 5 then 1 else 0, intel)
  | token :: rest, intel, fields_found =>
    match parse_intel_field token intel fields_found with
    | .error intel1 => (0, intel1)
    | .ok (intel1, found1) => parse_intel_loop rest intel1 found1

/-- `parse_intel(message, intel)`: the returned `int` and the content of `*intel`
afterwards (`strdup` is taken to succeed). -/
def parse_intel (message : List Nat) : Int × Intel :=
  parse_intel_loop (strtok_all (cstr message) 124) Intel.zero 0

/-! ## The silo (`missileSilo.c`) -/

namespace Silo

/-- `caesar_decrypt` of `missileSilo.c`: the same text as the function of
`nuclearControl.c`, with the same `CAESAR_SHIFT`. -/
def caesar_decrypt (ciphertext : List Nat) (len : Nat) : List Nat :=
  fill_buffer (caesar_loop decrypt_char ciphertext (size_pred len)) len

def KEY_COMMAND : List Nat := str "command"
def KEY_TARGET : List Nat := str "target"

/-- One iteration of the `while (token)` loop of `parse_command` from the
content of the buffers `command` and `target`; `none` when the iteration
executes `return 0`. -/
def parse_command_field (token command target : List Nat) : Option (List Nat × List Nat) :=
  match strchr token 58 with
  | none => none
  | some colon =>
    let key := token.takeWhile (fun b => b != 58)
    let value := colon.drop 1
    if key = [] ∨ value = [] then none
    else if key = KEY_COMMAND then some ((strncpy command value 19).set 19 0, target)
    else if key = KEY_TARGET then some (command, (strncpy target value 49).set 49 0)
    else some (command, target)

/-- The `while (token)` loop of `parse_command`, then
`return (command[0] != 0 && target[0] != 0)`. -/
def parse_command_loop : List (List Nat) → List Nat → List Nat → Int × List Nat × List Nat
  | [], command, target =>
    (if command.head? ≠ some 0 ∧ target.head? ≠ some 0 then 1 else 0, command, target)
  | token :: rest, command, target =>
    match parse_command_field token command target with
    | none => (0, command, target)
    | some (command1, target1) => parse_command_loop rest command1 target1

/-- `parse_command(message, command, target)`, called on the buffers
`command[20]` and `target[50]` of `main` with whatever they hold: the returned
`int` and the two buffers afterwards (`strdup` is taken to succeed). -/
def parse_command (message command target : List Nat) : Int × List Nat × List Nat :=
  parse_command_loop (strtok_all (cstr message) 124) (command.set 0 0) (target.set 0 0)

end Silo

/-! ## Reading a message as fields -/

/-- The fields of a message: the tokens between `'|'`. -/
def fields (message : List Nat) : List (List Nat) := strtok_all (cstr message) 124

/-- Key of a field: the text before its first `':'`, when it has one. -/
def field_key (token : List Nat) : Option (List Nat) :=
  if 58 ∈ token then some (token.takeWhile (fun b => b != 58)) else none

/-- Number of fields of the message whose key is `key`. -/
def key_count (key : List Nat) (toks : List (List Nat)) : Nat :=
  toks.countP (fun t => field_key t == some key)

/-- The five required keys of an Intel message. -/
def REQUIRED_KEYS : List (List Nat) :=
  [KEY_SOURCE, KEY_TYPE, KEY_DATA, KEY_THREAT_LEVEL, KEY_LOCATION]

/-- The text of a field `key:value`. -/
def field (key value : List Nat) : List Nat := key ++ 58 :: value

/-- Fields joined by `'|'`. -/
def join_fields : List (List Nat) → List Nat
  | [] => []
  | [f] => f
  | f :: g :: gs => f ++ 124 :: join_fields (g :: gs)

/-- The loop of `parse_intel` as a fold: the state is `*intel` and
`fields_found`, and `none` once an iteration has executed `return 0`. -/
def parse_intel_step (s : Option (Intel × Int)) (token : List Nat) : Option (Intel × Int) :=
  match s with
  | none => none
  | some (intel, found) =>
    match parse_intel_field token intel found with
    | .error _ => none
    | .ok r => some r

/-! ## Dispatcher and connection handler of the control node -/

/-- `Client`: one slot of `clients[]` (the thread handle plays no part). -/
structure Client where
  sock : Int
  ip : List Nat
  port : Nat
  valid : Bool
  deriving DecidableEq

/-- The globals of `nuclearControl.c` that the handler reads or writes. -/
structure Server where
  clients : List Client
  client_count : Int
  threats_detected : Int
  commands_issued : Int
  deriving DecidableEq

/-- The globals at program start: static storage is zeroed, so no slot is
valid and the counters are 0. -/
def Server.init : Server :=
  { clients := List.replicate MAX_CLIENTS { sock := 0, ip := [], port := 0, valid := false },
    client_count := 0, threats_detected := 0, commands_issued := 0 }

/-- What one call `send(sock, buf, len, 0)` on a stream socket does.  It returns
the number of bytes taken (`ok`), or it returns -1 (`error`), or, when the peer
has closed the connection, it raises SIGPIPE (`sigpipe`): the flags are 0 and
no file of the repository ignores, blocks or handles that signal, so its
default action terminates the process. -/
inductive SendOutcome where
  | ok
  | error
  | sigpipe
  deriving DecidableEq

/-- One call of `send` made by the dispatcher: the slot, the bytes sent and
what the call did. -/
structure Send where
  slot : Nat
  payload : List Nat
  outcome : SendOutcome
  deriving DecidableEq

/-- `snprintf(command, sizeof(command), "command:launch|target:%s", location)`:
the C string left in `command[256]`. -/
def format_command (location : List Nat) : List Nat :=
  (str "command:launch|target:" ++ cstr location).take 255

/-- The `for` loop of `send_command_to_clients` from slot `i` on;
`send_result j` is what the `send` on slot `j` does.  The result is
`commands_issued`, the calls of `send` in order, and whether the process was
terminated.  A `send` that returns -1 is logged and the loop goes on; a `send`
that raises SIGPIPE ends the process there, so no later slot is reached. -/
def send_loop (payload : List Nat) (send_result : Nat → SendOutcome) :
    List Client → Nat → Int → Int × List Send × Bool
  | [], _, issued => (issued, [], false)
  | c :: cs, i, issued =>
    if c.valid && (c.port == PORT_SILO || c.port == PORT_SUB) then
      match send_result i with
      | .ok =>
        let r := send_loop payload send_result cs (i + 1) (issued + 1)
        (r.1, { slot := i, payload := payload, outcome := .ok } :: r.2.1, r.2.2)
      | .error =>
        let r := send_loop payload send_result cs (i + 1) issued
        (r.1, { slot := i, payload := payload, outcome := .error } :: r.2.1, r.2.2)
      | .sigpipe => (issued, [{ slot := i, payload := payload, outcome := .sigpipe }], true)
    else send_loop payload send_result cs (i + 1) issued

/-- `send_command_to_clients(location)`: the globals afterwards, the calls of
`send` in order, and whether the process was terminated during the loop. -/
def send_command_to_clients (location : List Nat) (send_result : Nat → SendOutcome)
    (sv : Server) : Server × List Send × Bool :=
  let command := format_command location
  let ciphertext := caesar_encrypt command BUFFER_SIZE
  let r := send_loop (cstr ciphertext) send_result sv.clients 0 sv.commands_issued
  ({ sv with commands_issued := r.1 }, r.2.1, r.2.2)

/-- What one iteration of the receive loop of `handle_client` does after a
successful `recv`; `killed` tells whether a `send` terminated the process. -/
structure Step where
  server : Server
  parsed : Bool
  dispatched : Option (List Nat)
  sends : List Send
  killed : Bool
  deriving DecidableEq

/-- `strcmp(a, b) == 0` on two buffers. -/
def streq (a b : List Nat) : Bool := cstr a == cstr b

/-- The body of the `while` loop of `handle_client` once `recv` has returned
`buffer` (a positive number of bytes): decode, parse, count, and dispatch when
the policy says so.  `dispatched` is the argument of the call of
`send_command_to_clients`, when there is one. -/
def handle_message (buffer : List Nat) (send_result : Nat → SendOutcome) (sv : Server) :
    Step :=
  let plaintext := caesar_decrypt buffer BUFFER_SIZE
  let r := parse_intel plaintext
  if r.1 ≠ 0 then
    let intel := r.2
    let sv1 := { sv with threats_detected := sv.threats_detected + 1 }
    if intel.threat_level > 70 ∧
        (streq intel.source (str "Radar") ∨ streq intel.source (str "Satellite")) then
      let d := send_command_to_clients intel.location send_result sv1
      { server := d.1, parsed := true, dispatched := some (cstr intel.location),
        sends := d.2.1, killed := d.2.2 }
    else { server := sv1, parsed := true, dispatched := none, sends := [], killed := false }
  else { server := sv, parsed := false, dispatched := none, sends := [], killed := false }

/-- The test of `send_command_to_clients` on a slot: valid, and connected
through the silo port or the submarine port. -/
def actuator_slot (c : Client) : Bool :=
  c.valid && (c.port == PORT_SILO || c.port == PORT_SUB)

/-! ## The receive loop of `handle_client` and its exit -/

/-- A handler thread after one evaluation of its loop: the globals, the struct
`arg` points to, whether the loop was left (and the cleanup run), the calls of
`send` made, and whether one of them terminated the process. -/
structure Handler where
  server : Server
  client : Client
  exited : Bool
  sends : List Send
  killed : Bool
  deriving DecidableEq

/-- The code of `handle_client` after the loop: `close(client_sock)`, then under
the mutex `client->valid = false` and `atomic_fetch_sub(&client_count, 1)`.
`client` is the `arg` of the thread, the struct `accept_clients` allocated with
`malloc`; the slot of `clients[]` was filled from it by the struct assignment
`clients[i] = *client`, a copy, and no statement of `handle_client` writes
`clients[]`. -/
def handle_client_cleanup (client : Client) (sv : Server) : Client × Server :=
  ({ client with valid := false }, { sv with client_count := sv.client_count - 1 })

/-- One evaluation of `while (atomic_load(&running))` in `handle_client`:
`bytes` is what `recv` returns and `buffer` what it stored.  The loop is left
when `running` is false or `bytes <= 0`; otherwise `buffer[bytes] = 0` and the
body runs. -/
def handle_client_iteration (running : Bool) (bytes : Int) (buffer : List Nat)
    (send_result : Nat → SendOutcome) (client : Client) (sv : Server) : Handler :=
  if running = false ∨ bytes ≤ 0 then
    let r := handle_client_cleanup client sv
    { server := r.2, client := r.1, exited := true, sends := [], killed := false }
  else
    let st := handle_message (buffer.take bytes.toNat) send_result sv
    { server := st.server, client := client, exited := false, sends := st.sends,
      killed := st.killed }

/-! ## The registry (`clients[]`, `client_count`) -/

/-- The `for` loop of `accept_clients` under the mutex, from the first slot on:
the table with `*client` copied into the first slot that is not valid, or `none`
when every slot is valid (`added` stays 0). -/
def register_loop (client : Client) : List Client → Option (List Client)
  | [] => none
  | c :: cs =>
    if c.valid then (register_loop client cs).map (fun r => c :: r)
    else some (client :: cs)

/-- The registration of `accept_clients` (lines 428 to 439): the globals
afterwards and `added`. -/
def accept_clients_register (client : Client) (sv : Server) : Server × Int :=
  match register_loop client sv.clients with
  | none => (sv, 0)
  | some cs => ({ sv with clients := cs, client_count := sv.client_count + 1 }, 1)

/-- The control node as the registry sees it: the globals, and the `malloc`ed
structs of the handler threads that are running. -/
structure Node where
  server : Server
  handlers : List Client
  deriving DecidableEq

def Node.init : Node := { server := Server.init, handlers := [] }

/-- One iteration of the loop of `accept_clients` once `accept` and `malloc`
have succeeded; `thread_ok` tells whether `pthread_create` succeeds.  The result
is the node and `added`.  When the table is full the connection is closed and
the struct freed; when the thread cannot be created the rollback sets
`client->valid = false` on the struct (then frees it) and decrements
`client_count`. -/
def accept_clients_iteration (client_sock : Int) (ip : List Nat) (port : Nat)
    (thread_ok : Bool) (nd : Node) : Node × Int :=
  let client : Client := { sock := client_sock, ip := ip, port := port, valid := true }
  let r := accept_clients_register client nd.server
  if r.2 = 0 then (nd, 0)
  else if thread_ok then ({ server := r.1, handlers := nd.handlers ++ [client] }, 1)
  else ({ server := { r.1 with client_count := r.1.client_count - 1 },
          handlers := nd.handlers }, 1)

/-- The handler thread number `k` leaves its loop and runs its cleanup. -/
def handler_exit (k : Nat) (nd : Node) : Node :=
  match nd.handlers.get? k with
  | none => nd
  | some client =>
    { server := (handle_client_cleanup client nd.server).2,
      handlers := nd.handlers.eraseIdx k }

/-- The end of `main` (lines 614 to 625): every valid slot is closed and marked
invalid, then `atomic_store(&client_count, 0)`. -/
def shutdown_clients (sv : Server) : Server :=
  { sv with
    clients := sv.clients.map (fun c => if c.valid then { c with valid := false } else c),
    client_count := 0 }

/-- The operations on the registry, taken one at a time. -/
inductive RegistryOp where
  | accept (client_sock : Int) (ip : List Nat) (port : Nat) (thread_ok : Bool)
  | exit (k : Nat)
  | shutdown
  deriving DecidableEq

def registry_step (nd : Node) : RegistryOp → Node
  | .accept client_sock ip port thread_ok =>
    (accept_clients_iteration client_sock ip port thread_ok nd).1
  | .exit k => handler_exit k nd
  | .shutdown => { nd with server := shutdown_clients nd.server }

def registry_run (ops : List RegistryOp) (nd : Node) : Node :=
  ops.foldl registry_step nd

/-- Number of slots of `clients[]` marked valid. -/
def valid_count (sv : Server) : Nat := sv.clients.countP (fun c => c.valid)

/-! ## The satellite (`satellite.c`) -/

namespace Satellite

/-- `caesar_encrypt` of `satellite.c`: the same text as the function of
`nuclearControl.c`, with the same `CAESAR_SHIFT`. -/
def caesar_encrypt (plaintext : List Nat) (len : Nat) : List Nat :=
  fill_buffer (caesar_loop encrypt_char plaintext (size_pred len)) len

def threat_types : List (List Nat) := [str "Air", str "Sea", str "Space"]

def threat_data : List (List Nat) :=
  [str "Ballistic Missile", str "Naval Fleet", str "Satellite Anomaly", str "Orbital Debris"]

def locations : List (List Nat) :=
  [str "Arctic Ocean", str "Mediterranean", str "Barents Sea", str "North Sea"]

/-- The conversion `%d` of `snprintf`. -/
def format_d (n : Int) : List Nat :=
  if n < 0 then 45 :: (Nat.toDigits 10 n.natAbs).map Char.toNat
  else (Nat.toDigits 10 n.toNat).map Char.toNat

/-- What `send_intel` builds. -/
structure Report where
  type : List Nat
  data : List Nat
  threat_level : Int
  location : List Nat
  formatted : List Nat
  message : List Nat
  ciphertext : List Nat
  deriving DecidableEq

/-- `send_intel(sock)` up to the call of `send`; `r1`, `r2`, `r3`, `r4` are the
values of the four calls of `rand` (never negative) in the order they are made.
`formatted` is the text `snprintf` is asked to write, `message` the C string it
leaves in `message[512]`, `ciphertext` the 1024-byte buffer of which `send`
transmits the C string. -/
def send_intel (r1 r2 r3 r4 : Nat) : Report :=
  let idx := r1 % 4
  let type_idx := r2 % 3
  let threat_level : Int := if r3 % 100 < 30 then 71 + (r4 % 30 : Nat) else 10 + (r4 % 61 : Nat)
  let type := threat_types.getD type_idx []
  let data := threat_data.getD idx []
  let location := locations.getD idx []
  let formatted := str "source:Satellite|type:" ++ type ++ str "|data:" ++ data
    ++ str "|threat_level:" ++ format_d threat_level ++ str "|location:" ++ location
  let message := formatted.take 511
  { type := type, data := data, threat_level := threat_level, location := location,
    formatted := formatted, message := message,
    ciphertext := caesar_encrypt message BUFFER_SIZE }

end Satellite

/-! ## Cipher codec: lemmas -/

theorem size_pred_buffer : size_pred BUFFER_SIZE = 1023 := by
  norm_num [size_pred, BUFFER_SIZE]

theorem cstr_nul_free (w : List Nat) (h : ∀ c ∈ w, c ≠ 0) : cstr w = w := by
  unfold cstr
  rw [List.takeWhile_eq_self_iff]
  intro c hc
  simpa using h c hc

theorem cstr_append_zeros (w : List Nat) (k : Nat) (h : ∀ c ∈ w, c ≠ 0) :
    cstr (w ++ List.replicate k 0) = w := by
  induction w with
  | nil => cases k <;> simp [cstr, List.replicate_succ]
  | cons c cs ih =>
    have hc : c ≠ 0 := h c (List.mem_cons_self _ _)
    have := ih (fun d hd => h d (List.mem_cons_of_mem _ hd))
    simp only [cstr] at this ⊢
    simp [List.takeWhile_cons, hc, this]

theorem cstr_fill_buffer (w : List Nat) (len : Nat) (h : ∀ c ∈ w, c ≠ 0) :
    cstr (fill_buffer w len) = w :=
  cstr_append_zeros w _ h

theorem cstr_nul_free_mem (buf : List Nat) : ∀ c ∈ cstr buf, c ≠ 0 := by
  intro c hc
  have := List.mem_takeWhile_imp hc
  simpa using this

theorem caesar_loop_cstr (f : Nat → Nat) (buf : List Nat) (n : Nat) :
    caesar_loop f (cstr buf) n = caesar_loop f buf n := by
  induction buf generalizing n with
  | nil => rfl
  | cons c cs ih =>
    by_cases hc : c = 0
    · subst hc
      cases n <;> simp [cstr, caesar_loop]
    · cases n with
      | zero => simp [cstr, caesar_loop, List.takeWhile_cons, hc]
      | succ n =>
        have := ih n
        simp only [cstr] at this
        simp [cstr, caesar_loop, List.takeWhile_cons, hc, this]

theorem caesar_loop_eq_map (f : Nat → Nat) (x : List Nat) (n : Nat)
    (h0 : ∀ c ∈ x, c ≠ 0) (hn : x.length ≤ n) : caesar_loop f x n = x.map f := by
  induction x generalizing n with
  | nil => rfl
  | cons c cs ih =>
    cases n with
    | zero => simp at hn
    | succ n =>
      have hc : c ≠ 0 := h0 c (List.mem_cons_self _ _)
      simp only [List.length_cons, Nat.add_le_add_iff_right] at hn
      simp [caesar_loop, hc, ih n (fun d hd => h0 d (List.mem_cons_of_mem _ hd)) hn]

theorem encrypt_char_ne_zero (c : Nat) (h : c ≠ 0) : encrypt_char c ≠ 0 := by
  unfold encrypt_char
  split_ifs <;> simp_all

theorem decrypt_char_ne_zero (c : Nat) (h : c ≠ 0) : decrypt_char c ≠ 0 := by
  unfold decrypt_char
  simp only [CAESAR_SHIFT]
  split_ifs <;> omega

theorem decrypt_encrypt_char (c : Nat) : decrypt_char (encrypt_char c) = c := by
  unfold decrypt_char encrypt_char
  simp only [isalpha, isupper, islower, CAESAR_SHIFT, Bool.or_eq_true, Bool.and_eq_true,
    decide_eq_true_eq]
  split_ifs <;> omega

theorem encrypt_char_eq_shift (c : Nat) :
    encrypt_char c = (if 65 ≤ c ∧ c ≤ 90 then shift_letter 65 3 c
      else if 97 ≤ c ∧ c ≤ 122 then shift_letter 97 3 c else c) := by
  unfold encrypt_char shift_letter
  simp only [isalpha, isupper, islower, CAESAR_SHIFT, Bool.or_eq_true, Bool.and_eq_true,
    decide_eq_true_eq]
  split_ifs <;> omega

theorem decrypt_char_eq_shift (c : Nat) :
    decrypt_char c = (if 65 ≤ c ∧ c ≤ 90 then shift_letter 65 (-3) c
      else if 97 ≤ c ∧ c ≤ 122 then shift_letter 97 (-3) c else c) := by
  unfold decrypt_char shift_letter
  simp only [isalpha, isupper, islower, CAESAR_SHIFT, Bool.or_eq_true, Bool.and_eq_true,
    decide_eq_true_eq]
  split_ifs <;> omega

/-- On a NUL-free string that fits the buffer, `caesar_encrypt` leaves the
byte-wise image of the string. -/
theorem cstr_caesar_encrypt (x : List Nat) (h0 : ∀ c ∈ x, c ≠ 0) (hlen : x.length ≤ 1023) :
    cstr (caesar_encrypt x BUFFER_SIZE) = x.map encrypt_char := by
  unfold caesar_encrypt
  rw [size_pred_buffer, caesar_loop_eq_map _ _ _ h0 hlen]
  apply cstr_fill_buffer
  intro c hc
  obtain ⟨d, hd, rfl⟩ := List.mem_map.1 hc
  exact encrypt_char_ne_zero d (h0 d hd)

theorem cstr_caesar_decrypt (x : List Nat) (h0 : ∀ c ∈ x, c ≠ 0) (hlen : x.length ≤ 1023) :
    cstr (caesar_decrypt x BUFFER_SIZE) = x.map decrypt_char := by
  unfold caesar_decrypt
  rw [size_pred_buffer, caesar_loop_eq_map _ _ _ h0 hlen]
  apply cstr_fill_buffer
  intro c hc
  obtain ⟨d, hd, rfl⟩ := List.mem_map.1 hc
  exact decrypt_char_ne_zero d (h0 d hd)

theorem caesar_decrypt_cstr (buf : List Nat) (len : Nat) :
    caesar_decrypt (cstr buf) len = caesar_decrypt buf len := by
  unfold caesar_decrypt
  rw [caesar_loop_cstr]

/-- Decoding what `caesar_encrypt` produced from a NUL-free string that fits the
buffer gives the string back (no condition on the bytes being ASCII). -/
theorem caesar_roundtrip_bytes (x : List Nat) (h0 : ∀ c ∈ x, c ≠ 0) (hlen : x.length ≤ 1023) :
    cstr (caesar_decrypt (cstr (caesar_encrypt x BUFFER_SIZE)) BUFFER_SIZE) = x := by
  rw [cstr_caesar_encrypt x h0 hlen, cstr_caesar_decrypt]
  · rw [List.map_map]
    conv_rhs => rw [← List.map_id x]
    apply List.map_congr_left
    intro c _
    exact decrypt_encrypt_char c
  · intro c hc
    obtain ⟨d, hd, rfl⟩ := List.mem_map.1 hc
    exact encrypt_char_ne_zero d (h0 d hd)
  · simpa using hlen

/-! ## Cipher codec: round trip and reference cipher -/

/-- C1. For every NUL-free single-byte ASCII string `x` of length at most 1023,
`caesar_decrypt(caesar_encrypt(x))` is `x`: decrypting the 1024-byte buffer filled
by `caesar_encrypt` leaves the C string `x` in the output buffer. -/
theorem caesar_decrypt_encrypt (x : List Nat) (hnul : ∀ c ∈ x, c ≠ 0)
    (hascii : ∀ c ∈ x, c < 128) (hlen : x.length ≤ 1023) :
    cstr (caesar_decrypt (caesar_encrypt x BUFFER_SIZE) BUFFER_SIZE) = x := by
  have _ := hascii
  rw [← caesar_decrypt_cstr]
  exact caesar_roundtrip_bytes x hnul hlen

theorem caesar_decrypt_encrypt_witness :
    (∀ c ∈ str "Hello, World!", c ≠ 0) ∧ (∀ c ∈ str "Hello, World!", c < 128) ∧
    (str "Hello, World!").length ≤ 1023 ∧
    cstr (caesar_decrypt (caesar_encrypt (str "Hello, World!") BUFFER_SIZE) BUFFER_SIZE)
      = str "Hello, World!" :=
  ⟨by decide, by decide, by decide,
    caesar_decrypt_encrypt (str "Hello, World!") (by decide) (by decide) (by decide)⟩

/-- C2. `caesar_encrypt` is the reference shift cipher with shift 3 and
`caesar_decrypt` the one with shift -3: on every NUL-free string that fits the
1024-byte buffer the output string has the length of the input, every ASCII
letter is moved 3 places forward (backward) modulo 26 within its case and every
other byte is copied; `"ab"` encodes to `"de"` and `"de"` decodes to `"ab"`. -/
theorem caesar_refines_shift_cipher (x : List Nat) (hnul : ∀ c ∈ x, c ≠ 0)
    (hlen : x.length ≤ 1023) :
    cstr (caesar_encrypt x BUFFER_SIZE) = shift_cipher 3 x ∧
    cstr (caesar_decrypt x BUFFER_SIZE) = shift_cipher (-3) x ∧
    (cstr (caesar_encrypt x BUFFER_SIZE)).length = x.length ∧
    (cstr (caesar_decrypt x BUFFER_SIZE)).length = x.length ∧
    cstr (caesar_encrypt (str "ab") BUFFER_SIZE) = str "de" ∧
    cstr (caesar_decrypt (str "de") BUFFER_SIZE) = str "ab" := by
  have he : cstr (caesar_encrypt x BUFFER_SIZE) = shift_cipher 3 x := by
    rw [cstr_caesar_encrypt x hnul hlen]
    exact List.map_congr_left fun c _ => encrypt_char_eq_shift c
  have hd : cstr (caesar_decrypt x BUFFER_SIZE) = shift_cipher (-3) x := by
    rw [cstr_caesar_decrypt x hnul hlen]
    exact List.map_congr_left fun c _ => decrypt_char_eq_shift c
  refine ⟨he, hd, ?_, ?_, by decide, by decide⟩
  · rw [he]; simp [shift_cipher]
  · rw [hd]; simp [shift_cipher]

theorem caesar_refines_shift_cipher_witness :
    (∀ c ∈ str "Zebra-42", c ≠ 0) ∧ (str "Zebra-42").length ≤ 1023 ∧
    cstr (caesar_encrypt (str "Zebra-42") BUFFER_SIZE) = shift_cipher 3 (str "Zebra-42") ∧
    cstr (caesar_decrypt (str "Zebra-42") BUFFER_SIZE) = shift_cipher (-3) (str "Zebra-42") :=
  ⟨by decide, by decide,
    (caesar_refines_shift_cipher (str "Zebra-42") (by decide) (by decide)).1,
    (caesar_refines_shift_cipher (str "Zebra-42") (by decide) (by decide)).2.1⟩


/-! ## Protocol codec: counting the required fields -/

theorem strchr_eq_none (t : List Nat) (c : Nat) : strchr t c = none ↔ c ∉ t := by
  unfold strchr
  constructor
  · intro h
    split at h
    · next hd =>
      rw [List.dropWhile_eq_nil_iff] at hd
      intro hc
      simpa using hd c hc
    · simp at h
  · intro h
    have : t.dropWhile (fun b => b != c) = [] := by
      rw [List.dropWhile_eq_nil_iff]
      intro x hx
      have : x ≠ c := fun e => h (e ▸ hx)
      simpa using this
    rw [this]

theorem field_key_of_strchr (t colon : List Nat) (h : strchr t 58 = some colon) :
    field_key t = some (t.takeWhile (fun b => b != 58)) := by
  unfold field_key
  have : 58 ∈ t := by
    by_contra hc
    rw [(strchr_eq_none t 58).2 hc] at h
    cases h
  simp [this]

theorem keys_distinct : REQUIRED_KEYS.Nodup := by decide

/-- The sum over the five required keys of the number of fields with that key. -/
theorem key_count_cons (k t : List Nat) (ts : List (List Nat)) :
    key_count k (t :: ts) = key_count k ts + if field_key t = some k then 1 else 0 := by
  unfold key_count
  rw [List.countP_cons]
  simp

theorem parse_intel_field_ok_count (t : List Nat) (intel intel1 : Intel) (n n1 : Int)
    (h : parse_intel_field t intel n = .ok (intel1, n1)) :
    n1 = n + ((if field_key t = some KEY_SOURCE then 1 else 0)
      + (if field_key t = some KEY_TYPE then 1 else 0)
      + (if field_key t = some KEY_DATA then 1 else 0)
      + (if field_key t = some KEY_THREAT_LEVEL then 1 else 0)
      + (if field_key t = some KEY_LOCATION then 1 else 0) : Nat) := by
  unfold parse_intel_field at h
  cases hs : strchr t 58 with
  | none => simp [hs] at h
  | some colon =>
    rw [field_key_of_strchr t colon hs]
    simp only [hs] at h
    have d1 : KEY_SOURCE ≠ KEY_TYPE := by decide
    have d2 : KEY_SOURCE ≠ KEY_DATA := by decide
    have d3 : KEY_SOURCE ≠ KEY_THREAT_LEVEL := by decide
    have d4 : KEY_SOURCE ≠ KEY_LOCATION := by decide
    have d5 : KEY_TYPE ≠ KEY_DATA := by decide
    have d6 : KEY_TYPE ≠ KEY_THREAT_LEVEL := by decide
    have d7 : KEY_TYPE ≠ KEY_LOCATION := by decide
    have d8 : KEY_DATA ≠ KEY_THREAT_LEVEL := by decide
    have d9 : KEY_DATA ≠ KEY_LOCATION := by decide
    have d10 : KEY_THREAT_LEVEL ≠ KEY_LOCATION := by decide
    split_ifs at h with h0 h1 h2 h3 h4 h5 h6 <;>
      simp only [Except.ok.injEq, Prod.mk.injEq, reduceCtorEq] at h <;>
      obtain ⟨-, rfl⟩ := h <;>
      simp [*, Ne.symm d1, Ne.symm d2, Ne.symm d3, Ne.symm d4, Ne.symm d5, Ne.symm d6,
        Ne.symm d7, Ne.symm d8, Ne.symm d9, Ne.symm d10]

/-- Number of fields of a token list that carry one of the five required keys,
counted key by key. -/
theorem parse_intel_loop_count (toks : List (List Nat)) :
    ∀ (intel : Intel) (n : Int), (parse_intel_loop toks intel n).1 ≠ 0 →
      n + (key_count KEY_SOURCE toks + key_count KEY_TYPE toks + key_count KEY_DATA toks
        + key_count KEY_THREAT_LEVEL toks + key_count KEY_LOCATION toks : Nat) = 5 := by
  induction toks with
  | nil =>
    intro intel n h
    simp only [parse_intel_loop] at h
    split_ifs at h with h5
    · simp [key_count, h5]
    · simp at h
  | cons t ts ih =>
    intro intel n h
    rw [parse_intel_loop] at h
    cases hf : parse_intel_field t intel n with
    | error e => simp [hf] at h
    | ok r =>
      obtain ⟨intel1, n1⟩ := r
      simp only [hf] at h
      have h1 := ih intel1 n1 h
      have h2 := parse_intel_field_ok_count t intel intel1 n n1 hf
      simp only [key_count_cons]
      rw [h2] at h1
      push_cast at h1 ⊢
      omega

theorem parse_intel_loop_ret (toks : List (List Nat)) :
    ∀ (intel : Intel) (n : Int), (parse_intel_loop toks intel n).1 = 0 ∨
      (parse_intel_loop toks intel n).1 = 1 := by
  induction toks with
  | nil =>
    intro intel n
    simp only [parse_intel_loop]
    split_ifs <;> simp
  | cons t ts ih =>
    intro intel n
    rw [parse_intel_loop]
    cases hf : parse_intel_field t intel n with
    | error e => simp
    | ok r => exact ih r.1 r.2

/-- C4. For every message in which each of the five required keys is the key of
at least one field and one of them is the key of two fields or more,
`parse_intel` returns 0. -/
theorem parse_intel_rejects_duplicate (message : List Nat)
    (hall : ∀ k ∈ REQUIRED_KEYS, 1 ≤ key_count k (fields message))
    (hdup : ∃ k ∈ REQUIRED_KEYS, 2 ≤ key_count k (fields message)) :
    (parse_intel message).1 = 0 := by
  by_contra hne
  have hc := parse_intel_loop_count (fields message) Intel.zero 0 hne
  simp only [REQUIRED_KEYS, List.mem_cons, List.mem_singleton, forall_eq_or_imp, forall_eq,
    exists_eq_or_imp, exists_eq_left, List.not_mem_nil, false_imp_iff, implies_true,
    exists_false, or_false, and_true, List.mem_nil_iff] at hall hdup
  omega

theorem parse_intel_rejects_duplicate_witness :
    (∀ k ∈ REQUIRED_KEYS, 1 ≤ key_count k (fields
      (str "source:Radar|type:Air|data:Bomber|threat_level:85|location:Arctic|source:Sonar"))) ∧
    (∃ k ∈ REQUIRED_KEYS, 2 ≤ key_count k (fields
      (str "source:Radar|type:Air|data:Bomber|threat_level:85|location:Arctic|source:Sonar"))) ∧
    (parse_intel
      (str "source:Radar|type:Air|data:Bomber|threat_level:85|location:Arctic|source:Sonar")).1
      = 0 :=
  ⟨by decide, by decide, parse_intel_rejects_duplicate _ (by decide) (by decide)⟩

/-- C3 (the code at the failing input). A message with five `source` fields and
no `type`, `data`, `threat_level` or `location` field is accepted: `parse_intel`
returns 1, and the fields it never saw are left empty, `threat_level` at 0. -/
theorem parse_intel_accepts_five_sources :
    key_count KEY_TYPE (fields (str "source:a|source:b|source:c|source:d|source:e")) = 0 ∧
    key_count KEY_THREAT_LEVEL
      (fields (str "source:a|source:b|source:c|source:d|source:e")) = 0 ∧
    (parse_intel (str "source:a|source:b|source:c|source:d|source:e")).1 = 1 ∧
    cstr (parse_intel (str "source:a|source:b|source:c|source:d|source:e")).2.source = str "e" ∧
    cstr (parse_intel (str "source:a|source:b|source:c|source:d|source:e")).2.type = [] ∧
    (parse_intel (str "source:a|source:b|source:c|source:d|source:e")).2.threat_level = 0 := by
  decide

/-- C5 (the code at the failing input). The negative integer `-4294967295` in
the `threat_level` field is accepted: `strtol` returns it as a `long`, the
conversion to `int` gives 1, and the test `threat_level < 0` passes, so
`parse_intel` returns 1 with `threat_level` 1. -/
theorem parse_intel_accepts_negative_threat :
    strtol (str "-4294967295") = (-4294967295, []) ∧
    (parse_intel
      (str "source:Radar|type:Air|data:Bomber|threat_level:-4294967295|location:Arctic")).1
      = 1 ∧
    (parse_intel
      (str "source:Radar|type:Air|data:Bomber|threat_level:-4294967295|location:Arctic")).2.threat_level
      = 1 := by
  decide
/-! ## Tokens of joined fields -/

theorem strtok_loop_append (d : Nat) (f : List Nat) (hf : ∀ c ∈ f, c ≠ d) :
    ∀ (rest cur : List Nat), strtok_loop d (f ++ rest) cur = strtok_loop d rest (cur ++ f) := by
  induction f with
  | nil => intro rest cur; simp
  | cons c cs ih =>
    intro rest cur
    have hc : c ≠ d := hf c (List.mem_cons_self _ _)
    have := ih (fun x hx => hf x (List.mem_cons_of_mem _ hx)) rest (cur ++ [c])
    rw [List.cons_append, strtok_loop, if_neg hc, this]
    simp

theorem strtok_loop_single (d : Nat) (f : List Nat) (hf : ∀ c ∈ f, c ≠ d) (hne : f ≠ []) :
    strtok_loop d f [] = [f] := by
  have := strtok_loop_append d f hf [] []
  simp only [List.append_nil, List.nil_append] at this
  rw [this]
  simp [strtok_loop, hne]

theorem strtok_loop_snoc_field (d : Nat) (f : List Nat) (hf : ∀ c ∈ f, c ≠ d) (hne : f ≠ []) :
    ∀ (a cur : List Nat), strtok_loop d (a ++ d :: f) cur = strtok_loop d a cur ++ [f] := by
  intro a
  induction a with
  | nil =>
    intro cur
    simp only [List.nil_append, strtok_loop, if_true, strtok_loop_single d f hf hne]
    split_ifs <;> simp
  | cons c cs ih =>
    intro cur
    simp only [List.cons_append, strtok_loop]
    split_ifs <;> simp [ih]

theorem strtok_all_join (toks : List (List Nat))
    (h : ∀ t ∈ toks, t ≠ [] ∧ ∀ c ∈ t, c ≠ 124) :
    strtok_all (join_fields toks) 124 = toks := by
  unfold strtok_all
  induction toks with
  | nil => rfl
  | cons f gs ih =>
    have hf := h f (List.mem_cons_self _ _)
    have hgs := ih (fun t ht => h t (List.mem_cons_of_mem _ ht))
    cases gs with
    | nil => simpa [join_fields] using strtok_loop_single 124 f hf.2 hf.1
    | cons g gs =>
      simp only [join_fields] at hgs ⊢
      rw [strtok_loop_append 124 f hf.2]
      simp [strtok_loop, hf.1, hgs]

theorem join_fields_nul_free (toks : List (List Nat)) (h : ∀ t ∈ toks, ∀ c ∈ t, c ≠ 0) :
    ∀ c ∈ join_fields toks, c ≠ 0 := by
  induction toks with
  | nil => simp [join_fields]
  | cons f gs ih =>
    have hgs := ih (fun t ht => h t (List.mem_cons_of_mem _ ht))
    have hf := h f (List.mem_cons_self _ _)
    cases gs with
    | nil => simpa [join_fields] using hf
    | cons g gs =>
      intro c hc
      simp only [join_fields, List.mem_append, List.mem_cons] at hc hgs
      rcases hc with hc | rfl | hc
      · exact hf c hc
      · decide
      · exact hgs c hc

theorem fields_join (toks : List (List Nat))
    (h : ∀ t ∈ toks, t ≠ [] ∧ ∀ c ∈ t, c ≠ 124 ∧ c ≠ 0) :
    fields (join_fields toks) = toks := by
  unfold fields
  rw [cstr_nul_free _ (join_fields_nul_free toks fun t ht c hc => (((h t ht).2) c hc).2)]
  exact strtok_all_join toks fun t ht => ⟨(h t ht).1, fun c hc => (((h t ht).2) c hc).1⟩

theorem cstr_append (a b : List Nat) :
    cstr (a ++ b) = if ∀ c ∈ a, c ≠ 0 then a ++ cstr b else cstr a := by
  induction a with
  | nil => simp
  | cons c cs ih =>
    by_cases hc : c = 0
    · subst hc
      simp [cstr]
    · simp only [cstr] at ih
      simp only [cstr, List.cons_append, List.takeWhile_cons, bne_iff_ne, ne_eq, hc,
        not_false_eq_true, decide_True, if_true, ih, List.mem_cons, forall_eq_or_imp, true_and]
      split_ifs <;> simp

/-! ## One field -/

theorem takeWhile_field (key value : List Nat) (hk : ∀ c ∈ key, c ≠ 58) :
    (field key value).takeWhile (fun b => b != 58) = key := by
  unfold field
  induction key with
  | nil => simp
  | cons c cs ih =>
    have hc : c ≠ 58 := hk c (List.mem_cons_self _ _)
    simp [List.takeWhile_cons, hc, ih (fun x hx => hk x (List.mem_cons_of_mem _ hx))]

theorem strchr_field (key value : List Nat) (hk : ∀ c ∈ key, c ≠ 58) :
    strchr (field key value) 58 = some (58 :: value) := by
  have : (field key value).dropWhile (fun b => b != 58) = 58 :: value := by
    unfold field
    induction key with
    | nil => simp
    | cons c cs ih =>
      have hc : c ≠ 58 := hk c (List.mem_cons_self _ _)
      simp [List.dropWhile_cons, hc, ih (fun x hx => hk x (List.mem_cons_of_mem _ hx))]
  unfold strchr
  rw [this]

/-- What one iteration does on a well-formed field `key:value`. -/
theorem parse_intel_field_field (key value : List Nat) (intel : Intel) (n : Int)
    (hk : ∀ c ∈ key, c ≠ 58) (hkne : key ≠ []) (hv : value ≠ []) :
    parse_intel_field (field key value) intel n =
      if key = KEY_SOURCE then
        .ok ({ intel with source := strncpy intel.source value 19 }, n + 1)
      else if key = KEY_TYPE then
        .ok ({ intel with type := strncpy intel.type value 19 }, n + 1)
      else if key = KEY_DATA then
        .ok ({ intel with data := strncpy intel.data value 255 }, n + 1)
      else if key = KEY_THREAT_LEVEL then
        if (strtol value).2 ≠ [] ∨ to_int (strtol value).1 < 0 then
          .error { intel with threat_level := to_int (strtol value).1 }
        else .ok ({ intel with threat_level := to_int (strtol value).1 }, n + 1)
      else if key = KEY_LOCATION then
        .ok ({ intel with location := strncpy intel.location value 49 }, n + 1)
      else .ok (intel, n) := by
  unfold parse_intel_field
  rw [strchr_field key value hk]
  simp only [takeWhile_field key value hk, List.drop_succ_cons, List.drop_zero, hkne, hv,
    or_self, if_false]

theorem parse_intel_loop_snoc_skipped (f : List Nat)
    (hf : ∀ (intel : Intel) (n : Int), parse_intel_field f intel n = .ok (intel, n))
    (toks : List (List Nat)) :
    ∀ (intel : Intel) (n : Int),
      parse_intel_loop (toks ++ [f]) intel n = parse_intel_loop toks intel n := by
  induction toks with
  | nil => intro intel n; simp [parse_intel_loop, hf]
  | cons t ts ih =>
    intro intel n
    simp only [List.cons_append, parse_intel_loop]
    cases parse_intel_field t intel n with
    | error e => rfl
    | ok r => exact ih r.1 r.2

/-- C6 (counterexample). The five required fields followed by `extra:1`: the
message has a field with key `extra`, and `parse_intel` returns 1. -/
theorem parse_intel_accepts_extra_key :
    key_count (str "extra") (fields
      (str "source:Radar|type:Air|data:Bomber|threat_level:85|location:Arctic|extra:1")) = 1 ∧
    (parse_intel
      (str "source:Radar|type:Air|data:Bomber|threat_level:85|location:Arctic|extra:1")).1
      = 1 := by
  decide

/-- C6 (amended). A field with any other key than the five required ones is
skipped by `parse_intel`: appending `|key:value`, with a non-empty key and a
non-empty value free of `'|'`, to any message changes neither the returned value
nor the stored `Intel`; the five required fields plus `extra:1` are accepted. -/
theorem parse_intel_ignores_other_key (message key value : List Nat)
    (hkey : key ≠ [] ∧ ∀ c ∈ key, c ≠ 0 ∧ c ≠ 124 ∧ c ≠ 58)
    (hval : value ≠ [] ∧ ∀ c ∈ value, c ≠ 0 ∧ c ≠ 124)
    (hother : key ∉ REQUIRED_KEYS) :
    parse_intel (message ++ 124 :: field key value) = parse_intel message := by
  have hf0 : ∀ c ∈ 124 :: field key value, c ≠ 0 := by
    intro c hc
    simp only [field, List.mem_cons, List.mem_append] at hc
    rcases hc with rfl | hc | rfl | hc
    · decide
    · exact (hkey.2 c hc).1
    · decide
    · exact (hval.2 c hc).1
  have hfd : ∀ c ∈ field key value, c ≠ 124 := by
    intro c hc
    simp only [field, List.mem_cons, List.mem_append] at hc
    rcases hc with hc | rfl | hc
    · exact (hkey.2 c hc).2.1
    · decide
    · exact (hval.2 c hc).2
  have hfne : field key value ≠ [] := by simp [field]
  unfold parse_intel
  rw [cstr_append]
  split_ifs with hm
  · rw [cstr_nul_free _ hf0, cstr_nul_free _ hm]
    unfold strtok_all
    rw [strtok_loop_snoc_field 124 _ hfd hfne]
    apply parse_intel_loop_snoc_skipped
    intro intel n
    rw [parse_intel_field_field key value intel n (fun c hc => (hkey.2 c hc).2.2) hkey.1 hval.1]
    simp only [REQUIRED_KEYS, List.mem_cons, List.mem_singleton, List.not_mem_nil, or_false,
      not_or] at hother
    simp [hother]
  · rfl

theorem parse_intel_ignores_other_key_witness :
    (str "extra" ≠ [] ∧ ∀ c ∈ str "extra", c ≠ 0 ∧ c ≠ 124 ∧ c ≠ 58) ∧
    (str "1" ≠ [] ∧ ∀ c ∈ str "1", c ≠ 0 ∧ c ≠ 124) ∧
    str "extra" ∉ REQUIRED_KEYS ∧
    parse_intel (str "source:Radar|type:Air|data:Bomber|threat_level:85|location:Arctic"
        ++ 124 :: field (str "extra") (str "1"))
      = parse_intel (str "source:Radar|type:Air|data:Bomber|threat_level:85|location:Arctic") ∧
    (parse_intel (str "source:Radar|type:Air|data:Bomber|threat_level:85|location:Arctic")).1
      = 1 :=
  ⟨by decide, by decide, by decide,
    parse_intel_ignores_other_key _ (str "extra") (str "1") (by decide) (by decide) (by decide),
    by decide⟩
/-! ## Stored values -/

theorem cstr_strncpy (dst v : List Nat) (n : Nat) (hv : ∀ c ∈ v, c ≠ 0) :
    cstr (strncpy dst v n) =
      if v.length < n then v else v.take n ++ cstr (dst.drop n) := by
  unfold strncpy
  split_ifs with h
  · rw [List.take_of_length_le (by omega), List.append_assoc]
    obtain ⟨k, hk⟩ : ∃ k, n - v.length = k + 1 := ⟨n - v.length - 1, by omega⟩
    rw [hk, List.replicate_succ, cstr_append, if_pos hv]
    simp [cstr]
  · have : n - v.length = 0 := by omega
    rw [this, List.replicate_zero, List.append_nil, cstr_append, if_pos]
    intro c hc
    exact hv c (List.mem_of_mem_take hc)

theorem cstr_strncpy_zero (v : List Nat) (n k : Nat) (hv : ∀ c ∈ v, c ≠ 0)
    (hn : v.length ≤ n) (hk : n < k) : cstr (strncpy (List.replicate k 0) v n) = v := by
  rw [cstr_strncpy _ _ _ hv]
  split_ifs with h
  · rfl
  · obtain ⟨j, hj⟩ : ∃ j, k - n = j + 1 := ⟨k - n - 1, by omega⟩
    rw [List.take_of_length_le hn, List.drop_replicate, hj, List.replicate_succ]
    simp [cstr]

theorem digits_value_snoc (ds : List Nat) (d : Nat) :
    digits_value (ds ++ [d]) = 10 * digits_value ds + (d - 48) := by
  simp [digits_value, List.foldl_append]

theorem digits_value_eq_ofDigits (ds : List Nat) :
    digits_value ds = Nat.ofDigits 10 ((ds.map fun d => d - 48).reverse) := by
  induction ds using List.reverseRecOn with
  | nil => simp [digits_value]
  | append_singleton ds d ih =>
    rw [digits_value_snoc, ih]
    simp [Nat.ofDigits_cons]
    omega

theorem strtol_digits (v : List Nat) (hne : v ≠ []) (hd : ∀ c ∈ v, isdigit c = true)
    (hmax : digits_value v ≤ 2147483647) : strtol v = ((digits_value v : Int), []) := by
  obtain ⟨d, ds, rfl⟩ := List.exists_cons_of_ne_nil hne
  have hd0 := hd d (List.mem_cons_self _ _)
  have hsp : isspace d = false := by
    simp only [isdigit, Bool.and_eq_true, decide_eq_true_eq] at hd0
    simp only [isspace, Bool.or_eq_false_iff, beq_eq_false_iff_ne, Bool.and_eq_false_iff,
      decide_eq_false_iff_not]
    omega
  have h45 : d ≠ 45 := by
    simp only [isdigit, Bool.and_eq_true, decide_eq_true_eq] at hd0; omega
  have h43 : d ≠ 43 := by
    simp only [isdigit, Bool.and_eq_true, decide_eq_true_eq] at hd0; omega
  have htake : (d :: ds).takeWhile isdigit = d :: ds := by
    rw [List.takeWhile_eq_self_iff]; exact hd
  have hdrop : (d :: ds).dropWhile isdigit = [] := by
    rw [List.dropWhile_eq_nil_iff]; exact hd
  have hs1 : (d :: ds).dropWhile isspace = d :: ds := by simp [List.dropWhile_cons, hsp]
  have hneg : ((d :: ds).head? == some 45) = false := by simp [h45]
  have hpos : ((d :: ds).head? == some 43) = false := by simp [h43]
  have h1 : (digits_value (d :: ds) : Int) ≤ 2147483647 := by exact_mod_cast hmax
  have h2 : (0 : Int) ≤ digits_value (d :: ds) := Int.natCast_nonneg _
  unfold strtol
  simp only [hs1, hneg, hpos, Bool.or_self, Bool.false_eq_true, if_false, htake, hdrop,
    reduceCtorEq, LONG_MIN, LONG_MAX, Prod.mk.injEq, and_true]
  rw [min_eq_right (by omega), max_eq_right (by omega)]

theorem to_int_small (v : Int) (h0 : 0 ≤ v) (h1 : v ≤ 2147483647) : to_int v = v := by
  unfold to_int
  omega
/-! ## The loop as a fold -/

theorem foldl_parse_intel_step_none (toks : List (List Nat)) :
    toks.foldl parse_intel_step none = none := by
  induction toks with
  | nil => rfl
  | cons t ts ih => simpa [List.foldl_cons, parse_intel_step] using ih

theorem parse_intel_loop_of_fold (toks : List (List Nat)) :
    ∀ (intel : Intel) (n : Int) (r : Intel × Int),
      toks.foldl parse_intel_step (some (intel, n)) = some r →
      parse_intel_loop toks intel n = (if r.2 = 5 then 1 else 0, r.1) := by
  induction toks with
  | nil =>
    intro intel n r h
    simp only [List.foldl_nil, Option.some.injEq] at h
    subst h
    rfl
  | cons t ts ih =>
    intro intel n r h
    rw [List.foldl_cons] at h
    rw [parse_intel_loop]
    cases hf : parse_intel_field t intel n with
    | error e =>
      simp only [parse_intel_step, hf] at h
      rw [foldl_parse_intel_step_none] at h
      cases h
    | ok q =>
      obtain ⟨i1, n1⟩ := q
      simp only [parse_intel_step, hf] at h
      exact ih i1 n1 r h

theorem field_clean (k v : List Nat) (hk : ∀ c ∈ k, c ≠ 124 ∧ c ≠ 0)
    (hv : ∀ c ∈ v, c ≠ 0 ∧ c ≠ 124) :
    field k v ≠ [] ∧ ∀ c ∈ field k v, c ≠ 124 ∧ c ≠ 0 := by
  refine ⟨by simp [field], ?_⟩
  intro c hc
  simp only [field, List.mem_append, List.mem_cons] at hc
  rcases hc with hc | rfl | hc
  · exact hk c hc
  · decide
  · exact ⟨(hv c hc).2, (hv c hc).1⟩

theorem digit_clean (v : List Nat) (hd : ∀ c ∈ v, isdigit c = true) :
    ∀ c ∈ v, c ≠ 0 ∧ c ≠ 124 := by
  intro c hc
  have := hd c hc
  simp only [isdigit, Bool.and_eq_true, decide_eq_true_eq] at this
  omega

/-- The five required fields in the order of the struct: the state after the
loop, whatever the order in which the fields come. -/
theorem parse_intel_fold_perm (toks : List (List Nat)) (vs vt vd vn vl : List Nat)
    (hperm : toks.Perm [field KEY_SOURCE vs, field KEY_TYPE vt, field KEY_DATA vd,
      field KEY_THREAT_LEVEL vn, field KEY_LOCATION vl])
    (hs : vs ≠ []) (ht : vt ≠ []) (hd : vd ≠ []) (hl : vl ≠ [])
    (hn : vn ≠ [] ∧ (∀ c ∈ vn, isdigit c = true) ∧ digits_value vn ≤ 2147483647) :
    toks.foldl parse_intel_step (some (Intel.zero, 0)) =
      some ({ source := strncpy (List.replicate 20 0) vs 19,
              type := strncpy (List.replicate 20 0) vt 19,
              data := strncpy (List.replicate 256 0) vd 255,
              threat_level := digits_value vn,
              location := strncpy (List.replicate 50 0) vl 49 }, 5) := by
  have hS : ∀ (i : Intel) (n : Int), parse_intel_step (some (i, n)) (field KEY_SOURCE vs) =
      some ({ i with source := strncpy i.source vs 19 }, n + 1) := by
    intro i n
    simp only [parse_intel_step]
    rw [parse_intel_field_field KEY_SOURCE vs i n (by decide) (by decide) hs, if_pos rfl]
  have hT : ∀ (i : Intel) (n : Int), parse_intel_step (some (i, n)) (field KEY_TYPE vt) =
      some ({ i with type := strncpy i.type vt 19 }, n + 1) := by
    intro i n
    simp only [parse_intel_step]
    rw [parse_intel_field_field KEY_TYPE vt i n (by decide) (by decide) ht,
      if_neg (by decide), if_pos rfl]
  have hD : ∀ (i : Intel) (n : Int), parse_intel_step (some (i, n)) (field KEY_DATA vd) =
      some ({ i with data := strncpy i.data vd 255 }, n + 1) := by
    intro i n
    simp only [parse_intel_step]
    rw [parse_intel_field_field KEY_DATA vd i n (by decide) (by decide) hd,
      if_neg (by decide), if_neg (by decide), if_pos rfl]
  have hN : ∀ (i : Intel) (n : Int),
      parse_intel_step (some (i, n)) (field KEY_THREAT_LEVEL vn) =
      some ({ i with threat_level := digits_value vn }, n + 1) := by
    intro i n
    simp only [parse_intel_step]
    rw [parse_intel_field_field KEY_THREAT_LEVEL vn i n (by decide) (by decide) hn.1,
      if_neg (by decide), if_neg (by decide), if_neg (by decide), if_pos rfl,
      strtol_digits vn hn.1 hn.2.1 hn.2.2]
    have h1 : (digits_value vn : Int) ≤ 2147483647 := by exact_mod_cast hn.2.2
    have h2 : (0 : Int) ≤ digits_value vn := Int.natCast_nonneg _
    simp only [to_int_small _ h2 h1, ne_eq, not_true_eq_false, false_or]
    rw [if_neg (by omega)]
  have hL : ∀ (i : Intel) (n : Int), parse_intel_step (some (i, n)) (field KEY_LOCATION vl) =
      some ({ i with location := strncpy i.location vl 49 }, n + 1) := by
    intro i n
    simp only [parse_intel_step]
    rw [parse_intel_field_field KEY_LOCATION vl i n (by decide) (by decide) hl,
      if_neg (by decide), if_neg (by decide), if_neg (by decide), if_neg (by decide),
      if_pos rfl]
  have hcomm : ∀ x ∈ toks, ∀ y ∈ toks, ∀ z : Option (Intel × Int),
      parse_intel_step (parse_intel_step z x) y = parse_intel_step (parse_intel_step z y) x := by
    intro x hx y hy z
    have hx1 := hperm.mem_iff.1 hx
    have hy1 := hperm.mem_iff.1 hy
    simp only [List.mem_cons, List.mem_singleton, List.not_mem_nil, or_false] at hx1 hy1
    cases z with
    | none => rfl
    | some q =>
      obtain ⟨i, n⟩ := q
      rcases hx1 with rfl | rfl | rfl | rfl | rfl <;>
        rcases hy1 with rfl | rfl | rfl | rfl | rfl <;>
        simp only [hS, hT, hD, hN, hL]
  rw [hperm.foldl_eq' hcomm]
  simp only [List.foldl_cons, List.foldl_nil, hS, hT, hD, hN, hL, Intel.zero]
  norm_num
/-- C7. A message made of exactly five `'|'`-joined fields `key:value`, one per
required key and in any order, whose values are non-empty C strings without
`'|'` that fit their field (19, 19, 255 and 49 bytes) and whose `threat_level`
is a run of decimal digits of value at most 2147483647, is accepted:
`parse_intel` returns 1 and stores each value (the whole text after the first
`':'` of its field), with `threat_level` the value of the digits.  Also
`"source:Radar|type:Air|data:Bomber|threat_level:85|location:Arctic"` gives
`Radar`, `Air`, `Bomber`, 85 and `Arctic`. -/
theorem parse_intel_accepts_well_formed (fs : List (List Nat × List Nat))
    (vs vt vd vn vl : List Nat)
    (hperm : fs.Perm [(KEY_SOURCE, vs), (KEY_TYPE, vt), (KEY_DATA, vd),
      (KEY_THREAT_LEVEL, vn), (KEY_LOCATION, vl)])
    (hs : vs ≠ [] ∧ vs.length ≤ 19 ∧ ∀ c ∈ vs, c ≠ 0 ∧ c ≠ 124)
    (ht : vt ≠ [] ∧ vt.length ≤ 19 ∧ ∀ c ∈ vt, c ≠ 0 ∧ c ≠ 124)
    (hd : vd ≠ [] ∧ vd.length ≤ 255 ∧ ∀ c ∈ vd, c ≠ 0 ∧ c ≠ 124)
    (hl : vl ≠ [] ∧ vl.length ≤ 49 ∧ ∀ c ∈ vl, c ≠ 0 ∧ c ≠ 124)
    (hn : vn ≠ [] ∧ (∀ c ∈ vn, isdigit c = true) ∧
      Nat.ofDigits 10 ((vn.map fun d => d - 48).reverse) ≤ 2147483647) :
    (parse_intel (join_fields (fs.map fun kv => field kv.1 kv.2))).1 = 1 ∧
    cstr (parse_intel (join_fields (fs.map fun kv => field kv.1 kv.2))).2.source = vs ∧
    cstr (parse_intel (join_fields (fs.map fun kv => field kv.1 kv.2))).2.type = vt ∧
    cstr (parse_intel (join_fields (fs.map fun kv => field kv.1 kv.2))).2.data = vd ∧
    (parse_intel (join_fields (fs.map fun kv => field kv.1 kv.2))).2.threat_level
      = ((Nat.ofDigits 10 ((vn.map fun d => d - 48).reverse) : Nat) : Int) ∧
    cstr (parse_intel (join_fields (fs.map fun kv => field kv.1 kv.2))).2.location = vl ∧
    ((parse_intel
        (str "source:Radar|type:Air|data:Bomber|threat_level:85|location:Arctic")).1 = 1 ∧
      cstr (parse_intel
        (str "source:Radar|type:Air|data:Bomber|threat_level:85|location:Arctic")).2.source
        = str "Radar" ∧
      cstr (parse_intel
        (str "source:Radar|type:Air|data:Bomber|threat_level:85|location:Arctic")).2.type
        = str "Air" ∧
      cstr (parse_intel
        (str "source:Radar|type:Air|data:Bomber|threat_level:85|location:Arctic")).2.data
        = str "Bomber" ∧
      (parse_intel
        (str "source:Radar|type:Air|data:Bomber|threat_level:85|location:Arctic")).2.threat_level
        = 85 ∧
      cstr (parse_intel
        (str "source:Radar|type:Air|data:Bomber|threat_level:85|location:Arctic")).2.location
        = str "Arctic") := by
  rw [← digits_value_eq_ofDigits] at hn ⊢
  have hp := hperm.map (fun kv : List Nat × List Nat => field kv.1 kv.2)
  simp only [List.map_cons, List.map_nil] at hp
  have hclean : ∀ t ∈ fs.map (fun kv : List Nat × List Nat => field kv.1 kv.2),
      t ≠ [] ∧ ∀ c ∈ t, c ≠ 124 ∧ c ≠ 0 := by
    intro t htm
    have := hp.mem_iff.1 htm
    simp only [List.mem_cons, List.mem_singleton, List.not_mem_nil, or_false] at this
    rcases this with rfl | rfl | rfl | rfl | rfl
    · exact field_clean _ _ (by decide) hs.2.2
    · exact field_clean _ _ (by decide) ht.2.2
    · exact field_clean _ _ (by decide) hd.2.2
    · exact field_clean _ _ (by decide) (digit_clean vn hn.2.1)
    · exact field_clean _ _ (by decide) hl.2.2
  have hfold := parse_intel_fold_perm _ vs vt vd vn vl hp hs.1 ht.1 hd.1 hl.1 hn
  have hloop := parse_intel_loop_of_fold _ _ _ _ hfold
  have hparse : parse_intel (join_fields (fs.map fun kv => field kv.1 kv.2)) =
      parse_intel_loop (fs.map fun kv => field kv.1 kv.2) Intel.zero 0 := by
    unfold parse_intel
    rw [show strtok_all (cstr (join_fields (fs.map fun kv => field kv.1 kv.2))) 124
      = fields (join_fields (fs.map fun kv => field kv.1 kv.2)) from rfl,
      fields_join _ hclean]
  rw [hparse, hloop]
  refine ⟨by simp, ?_, ?_, ?_, rfl, ?_, by decide⟩
  · exact cstr_strncpy_zero vs 19 20 (fun c hc => (hs.2.2 c hc).1) hs.2.1 (by decide)
  · exact cstr_strncpy_zero vt 19 20 (fun c hc => (ht.2.2 c hc).1) ht.2.1 (by decide)
  · exact cstr_strncpy_zero vd 255 256 (fun c hc => (hd.2.2 c hc).1) hd.2.1 (by decide)
  · exact cstr_strncpy_zero vl 49 50 (fun c hc => (hl.2.2 c hc).1) hl.2.1 (by decide)

theorem parse_intel_accepts_well_formed_witness :
    (parse_intel (str "location:Kola|threat_level:0091|data:a:b c|type:Sea|source:Satellite")).1
      = 1 ∧
    cstr (parse_intel
      (str "location:Kola|threat_level:0091|data:a:b c|type:Sea|source:Satellite")).2.data
      = str "a:b c" ∧
    (parse_intel
      (str "location:Kola|threat_level:0091|data:a:b c|type:Sea|source:Satellite")).2.threat_level
      = 91 :=
  have h := parse_intel_accepts_well_formed
    [(KEY_LOCATION, str "Kola"), (KEY_THREAT_LEVEL, str "0091"), (KEY_DATA, str "a:b c"),
      (KEY_TYPE, str "Sea"), (KEY_SOURCE, str "Satellite")]
    (str "Satellite") (str "Sea") (str "a:b c") (str "0091") (str "Kola")
    (by decide) (by decide) (by decide) (by decide) (by decide) (by decide)
  ⟨h.1, h.2.2.2.1, h.2.2.2.2.1⟩
/-! ## The silo's parser -/

theorem strtok_loop_mem (d : Nat) (s : List Nat) :
    ∀ (cur : List Nat), ∀ t ∈ strtok_loop d s cur, ∀ c ∈ t, c ∈ cur ∨ c ∈ s := by
  induction s with
  | nil =>
    intro cur t ht c hc
    simp only [strtok_loop] at ht
    split_ifs at ht
    · simp at ht
    · simp only [List.mem_singleton] at ht
      subst ht
      exact Or.inl hc
  | cons x xs ih =>
    intro cur t ht c hc
    simp only [strtok_loop] at ht
    split_ifs at ht with h1 h2
    · rcases ih [] t ht c hc with h | h
      · simp at h
      · exact Or.inr (List.mem_cons_of_mem _ h)
    · rcases List.mem_cons.1 ht with rfl | ht
      · exact Or.inl hc
      · rcases ih [] t ht c hc with h | h
        · simp at h
        · exact Or.inr (List.mem_cons_of_mem _ h)
    · rcases ih _ t ht c hc with h | h
      · rcases List.mem_append.1 h with h | h
        · exact Or.inl h
        · simp only [List.mem_singleton] at h
          subst h
          exact Or.inr (List.mem_cons_self _ _)
      · exact Or.inr (List.mem_cons_of_mem _ h)

theorem fields_nul_free (message : List Nat) : ∀ t ∈ fields message, ∀ c ∈ t, c ≠ 0 := by
  intro t ht c hc
  rcases strtok_loop_mem 124 _ [] t ht c hc with h | h
  · simp at h
  · exact cstr_nul_free_mem message c h

theorem strchr_split (t colon : List Nat) (h : strchr t 58 = some colon) :
    colon = 58 :: colon.drop 1 ∧ t = field (t.takeWhile fun b => b != 58) (colon.drop 1) := by
  induction t with
  | nil => simp [strchr] at h
  | cons x xs ih =>
    by_cases hx : x = 58
    · subst hx
      simp only [strchr, List.dropWhile_cons, bne_self_eq_false, Bool.false_eq_true, if_false,
        Option.some.injEq] at h
      subst h
      simp [field]
    · have hxs : strchr xs 58 = some colon := by
        simp only [strchr, List.dropWhile_cons, bne_iff_ne, ne_eq, hx, not_false_eq_true,
          decide_True, if_true] at h
        exact h
      obtain ⟨h1, h2⟩ := ih hxs
      refine ⟨h1, ?_⟩
      simp only [field, List.takeWhile_cons, bne_iff_ne, ne_eq, hx, not_false_eq_true,
        decide_True, if_true, List.cons_append, List.cons.injEq, true_and]
      exact h2

theorem cstr_set_zero (l : List Nat) : ∀ n : Nat, cstr (l.set n 0) = (cstr l).take n := by
  induction l with
  | nil => intro n; simp [cstr]
  | cons c cs ih =>
    intro n
    cases n with
    | zero => simp [cstr]
    | succ n =>
      have := ih n
      simp only [cstr] at this
      by_cases hc : c = 0
      · simp [cstr, hc]
      · simp [cstr, List.takeWhile_cons, hc, this]

theorem cstr_strncpy_set (dst v : List Nat) (n : Nat) (hv : ∀ c ∈ v, c ≠ 0) :
    cstr ((strncpy dst v n).set n 0) = v.take n := by
  rw [cstr_set_zero, cstr_strncpy _ _ _ hv]
  split_ifs with h
  · rfl
  · rw [List.take_append_of_le_length (by rw [List.length_take]; omega), List.take_take]
    simp

namespace Silo

/-- What an iteration of the loop of `parse_command` that does not return
does. -/
theorem parse_command_field_some (token c t c1 t1 : List Nat)
    (h : parse_command_field token c t = some (c1, t1)) :
    ∃ key value, token = field key value ∧ value ≠ [] ∧
      ((key = KEY_COMMAND ∧ c1 = (strncpy c value 19).set 19 0 ∧ t1 = t) ∨
       (key = KEY_TARGET ∧ c1 = c ∧ t1 = (strncpy t value 49).set 49 0) ∨
       (c1 = c ∧ t1 = t)) := by
  unfold parse_command_field at h
  cases hs : strchr token 58 with
  | none => simp [hs] at h
  | some colon =>
    simp only [hs] at h
    obtain ⟨-, h2⟩ := strchr_split token colon hs
    refine ⟨_, _, h2, ?_⟩
    split_ifs at h with h0 h1 h3
    · simp only [Option.some.injEq, Prod.mk.injEq] at h
      exact ⟨fun e => h0 (Or.inr e), Or.inl ⟨h1, h.1.symm, h.2.symm⟩⟩
    · simp only [Option.some.injEq, Prod.mk.injEq] at h
      exact ⟨fun e => h0 (Or.inr e), Or.inr (Or.inl ⟨h3, h.1.symm, h.2.symm⟩)⟩
    · simp only [Option.some.injEq, Prod.mk.injEq] at h
      exact ⟨fun e => h0 (Or.inr e), Or.inr (Or.inr ⟨h.1.symm, h.2.symm⟩)⟩

theorem parse_command_loop_success (toks : List (List Nat))
    (hnul : ∀ t ∈ toks, ∀ c ∈ t, c ≠ 0) :
    ∀ (c t : List Nat), (parse_command_loop toks c t).1 ≠ 0 →
      ((parse_command_loop toks c t).2.1 = c ∨
        ∃ v, v ≠ [] ∧ field KEY_COMMAND v ∈ toks ∧
          cstr (parse_command_loop toks c t).2.1 = v.take 19) ∧
      ((parse_command_loop toks c t).2.2 = t ∨
        ∃ v, v ≠ [] ∧ field KEY_TARGET v ∈ toks ∧
          cstr (parse_command_loop toks c t).2.2 = v.take 49) ∧
      (parse_command_loop toks c t).2.1.head? ≠ some 0 ∧
      (parse_command_loop toks c t).2.2.head? ≠ some 0 ∧
      (parse_command_loop toks c t).1 = 1 := by
  induction toks with
  | nil =>
    intro c t h
    simp only [parse_command_loop] at h ⊢
    split_ifs at h ⊢ with h1
    · exact ⟨Or.inl trivial, Or.inl trivial, h1.1, h1.2, rfl⟩
    · simp at h
  | cons tok rest ih =>
    intro c t h
    rw [parse_command_loop] at h ⊢
    cases hf : parse_command_field tok c t with
    | none => simp [hf] at h
    | some q =>
      obtain ⟨c1, t1⟩ := q
      simp only [hf] at h ⊢
      obtain ⟨hc, ht, hrest⟩ := ih (fun x hx => hnul x (List.mem_cons_of_mem _ hx)) c1 t1 h
      obtain ⟨key, value, htok, hvne, hcase⟩ := parse_command_field_some tok c t c1 t1 hf
      have hvnul : ∀ b ∈ value, b ≠ 0 := by
        intro b hb
        apply hnul tok (List.mem_cons_self _ _)
        rw [htok]
        simp [field, hb]
      refine ⟨?_, ?_, hrest⟩
      · rcases hc with hc | ⟨v, hv, hmem, hcs⟩
        · rcases hcase with ⟨hk, hc1, -⟩ | ⟨-, hc1, -⟩ | ⟨hc1, -⟩
          · refine Or.inr ⟨value, hvne, ?_, ?_⟩
            · rw [htok, hk]; exact List.mem_cons_self _ _
            · rw [hc, hc1]; exact cstr_strncpy_set c value 19 hvnul
          · exact Or.inl (hc.trans hc1)
          · exact Or.inl (hc.trans hc1)
        · exact Or.inr ⟨v, hv, List.mem_cons_of_mem _ hmem, hcs⟩
      · rcases ht with ht | ⟨v, hv, hmem, hcs⟩
        · rcases hcase with ⟨-, -, ht1⟩ | ⟨hk, -, ht1⟩ | ⟨-, ht1⟩
          · exact Or.inl (ht.trans ht1)
          · refine Or.inr ⟨value, hvne, ?_, ?_⟩
            · rw [htok, hk]; exact List.mem_cons_self _ _
            · rw [ht, ht1]; exact cstr_strncpy_set t value 49 hvnul
          · exact Or.inl (ht.trans ht1)
        · exact Or.inr ⟨v, hv, List.mem_cons_of_mem _ hmem, hcs⟩

end Silo

/-- C8. `parse_command` returns success only if the message has a field
`command:vc` and a field `target:vt` with `vc` and `vt` non-empty; the outputs
`command` and `target` then hold `vc` cut to 19 bytes and `vt` cut to 49 bytes.
The caller's buffers (20 and 50 bytes) may hold anything beforehand. -/
theorem parse_command_success_only_if (message command target : List Nat)
    (hc : command.length = 20) (ht : target.length = 50)
    (h : (Silo.parse_command message command target).1 ≠ 0) :
    (Silo.parse_command message command target).1 = 1 ∧
    ∃ vc vt, vc ≠ [] ∧ vt ≠ [] ∧
      field Silo.KEY_COMMAND vc ∈ fields message ∧
      field Silo.KEY_TARGET vt ∈ fields message ∧
      cstr (Silo.parse_command message command target).2.1 = vc.take 19 ∧
      cstr (Silo.parse_command message command target).2.2 = vt.take 49 := by
  unfold Silo.parse_command at h ⊢
  obtain ⟨h1, h2, h3, h4, h5⟩ :=
    Silo.parse_command_loop_success (fields message) (fields_nul_free message) _ _ h
  have hc0 : (command.set 0 0).head? = some 0 := by
    cases command with
    | nil => simp at hc
    | cons x xs => rfl
  have ht0 : (target.set 0 0).head? = some 0 := by
    cases target with
    | nil => simp at ht
    | cons x xs => rfl
  refine ⟨h5, ?_⟩
  rcases h1 with h1 | ⟨vc, hvc, hmc, hcc⟩
  · exact absurd (h1.symm ▸ hc0) h3
  · rcases h2 with h2 | ⟨vt, hvt, hmt, hct⟩
    · exact absurd (h2.symm ▸ ht0) h4
    · exact ⟨vc, vt, hvc, hvt, hmc, hmt, hcc, hct⟩

theorem parse_command_success_only_if_witness :
    (List.replicate 20 7).length = 20 ∧ (List.replicate 50 7).length = 50 ∧
    (Silo.parse_command (str "command:launch|target:Arctic")
      (List.replicate 20 7) (List.replicate 50 7)).1 = 1 ∧
    ∃ vc vt, vc ≠ [] ∧ vt ≠ [] ∧
      field Silo.KEY_COMMAND vc ∈ fields (str "command:launch|target:Arctic") ∧
      field Silo.KEY_TARGET vt ∈ fields (str "command:launch|target:Arctic") ∧
      cstr (Silo.parse_command (str "command:launch|target:Arctic")
        (List.replicate 20 7) (List.replicate 50 7)).2.1 = vc.take 19 ∧
      cstr (Silo.parse_command (str "command:launch|target:Arctic")
        (List.replicate 20 7) (List.replicate 50 7)).2.2 = vt.take 49 :=
  ⟨by decide, by decide,
    parse_command_success_only_if (str "command:launch|target:Arctic")
      (List.replicate 20 7) (List.replicate 50 7) (by decide) (by decide) (by decide)⟩
theorem head_ne_zero_of_cstr (l : List Nat) (h : cstr l ≠ []) : l.head? ≠ some 0 := by
  cases l with
  | nil => simp
  | cons c cs =>
    intro hc
    simp only [List.head?_cons, Option.some.injEq] at hc
    subst hc
    simp [cstr] at h

namespace Silo

theorem caesar_decrypt_eq (ciphertext : List Nat) (len : Nat) :
    caesar_decrypt ciphertext len = NuclearSim.caesar_decrypt ciphertext len := rfl

theorem parse_command_field_field (key value c t : List Nat)
    (hk : ∀ b ∈ key, b ≠ 58) (hkne : key ≠ []) (hv : value ≠ []) :
    parse_command_field (field key value) c t =
      if key = KEY_COMMAND then some ((strncpy c value 19).set 19 0, t)
      else if key = KEY_TARGET then some (c, (strncpy t value 49).set 49 0)
      else some (c, t) := by
  unfold parse_command_field
  rw [strchr_field key value hk]
  simp only [takeWhile_field key value hk, List.drop_succ_cons, List.drop_zero, hkne, hv,
    or_self, if_false]

/-- The loop of `parse_command` on the two fields the control node sends. -/
theorem parse_command_loop_launch (location c t : List Nat) (hne : location ≠ [])
    (hnul : ∀ b ∈ location, b ≠ 0) :
    (parse_command_loop [field KEY_COMMAND (str "launch"), field KEY_TARGET location] c t).1 = 1 ∧
    cstr (parse_command_loop
      [field KEY_COMMAND (str "launch"), field KEY_TARGET location] c t).2.1 = str "launch" ∧
    cstr (parse_command_loop
      [field KEY_COMMAND (str "launch"), field KEY_TARGET location] c t).2.2
      = location.take 49 := by
  have h1 : cstr ((strncpy c (str "launch") 19).set 19 0) = str "launch" := by
    rw [cstr_strncpy_set c (str "launch") 19 (by decide)]
    decide
  have h2 : cstr ((strncpy t location 49).set 49 0) = location.take 49 :=
    cstr_strncpy_set t location 49 hnul
  have h3 : ((strncpy c (str "launch") 19).set 19 0).head? ≠ some 0 :=
    head_ne_zero_of_cstr _ (by rw [h1]; decide)
  have h4 : ((strncpy t location 49).set 49 0).head? ≠ some 0 := by
    apply head_ne_zero_of_cstr
    rw [h2]
    cases location with
    | nil => exact absurd rfl hne
    | cons x xs => simp
  simp only [parse_command_loop]
  rw [parse_command_field_field KEY_COMMAND (str "launch") c t (by decide) (by decide)
    (by decide), if_pos rfl]
  simp only []
  rw [parse_command_field_field KEY_TARGET location _ t (by decide) (by decide) hne,
    if_neg (by decide), if_pos rfl]
  simp only [h3, h4, ne_eq, not_false_eq_true, and_self, if_true, h1, h2]

end Silo

/-- The command on the wire for a non-empty location.  For every location that
is a non-empty C string of at most 49 bytes without `'|'`, the control node
formats the command as exactly `command:launch|target:<location>`, and the silo
recovers it from the bytes sent: `parse_command` applied to the silo's
`caesar_decrypt` of the control node's `caesar_encrypt` of that text succeeds
with `command` equal to `launch` and `target` equal to the location.  The
hypothesis of a non-empty location is needed: `parse_intel` also accepts
reports without a `location` field. -/
theorem command_wire_roundtrip (location command target : List Nat)
    (hne : cstr location ≠ []) (hlen : (cstr location).length ≤ 49)
    (hbar : ∀ b ∈ cstr location, b ≠ 124) :
    format_command location = str "command:launch|target:" ++ cstr location ∧
    (Silo.parse_command
      (Silo.caesar_decrypt (cstr (caesar_encrypt (format_command location) BUFFER_SIZE))
        BUFFER_SIZE) command target).1 = 1 ∧
    cstr (Silo.parse_command
      (Silo.caesar_decrypt (cstr (caesar_encrypt (format_command location) BUFFER_SIZE))
        BUFFER_SIZE) command target).2.1 = str "launch" ∧
    cstr (Silo.parse_command
      (Silo.caesar_decrypt (cstr (caesar_encrypt (format_command location) BUFFER_SIZE))
        BUFFER_SIZE) command target).2.2 = cstr location := by
  have hnul := cstr_nul_free_mem location
  have hfmt : format_command location = str "command:launch|target:" ++ cstr location := by
    unfold format_command
    apply List.take_of_length_le
    rw [List.length_append]
    have : (str "command:launch|target:").length = 22 := by decide
    omega
  have hjoin : format_command location =
      join_fields [field Silo.KEY_COMMAND (str "launch"),
        field Silo.KEY_TARGET (cstr location)] := by
    rw [hfmt]
    rfl
  have hx0 : ∀ c ∈ format_command location, c ≠ 0 := by
    rw [hfmt]
    intro c hc
    rcases List.mem_append.1 hc with h | h
    · exact (by decide : ∀ b ∈ str "command:launch|target:", b ≠ 0) c h
    · exact hnul c h
  have hxl : (format_command location).length ≤ 1023 := by
    rw [hfmt, List.length_append]
    have : (str "command:launch|target:").length = 22 := by decide
    omega
  have hrt := caesar_roundtrip_bytes (format_command location) hx0 hxl
  have htoks : fields (format_command location) =
      [field Silo.KEY_COMMAND (str "launch"), field Silo.KEY_TARGET (cstr location)] := by
    rw [hjoin]
    apply fields_join
    intro t ht
    simp only [List.mem_cons, List.mem_singleton, List.not_mem_nil, or_false] at ht
    rcases ht with rfl | rfl
    · exact field_clean _ _ (by decide) (by decide)
    · exact field_clean _ _ (by decide) (fun c hc => ⟨hnul c hc, hbar c hc⟩)
  have hloop := Silo.parse_command_loop_launch (cstr location) (command.set 0 0)
    (target.set 0 0) hne hnul
  have hparse : Silo.parse_command
      (Silo.caesar_decrypt (cstr (caesar_encrypt (format_command location) BUFFER_SIZE))
        BUFFER_SIZE) command target =
      Silo.parse_command_loop
        [field Silo.KEY_COMMAND (str "launch"), field Silo.KEY_TARGET (cstr location)]
        (command.set 0 0) (target.set 0 0) := by
    unfold Silo.parse_command
    rw [Silo.caesar_decrypt_eq, hrt,
      show strtok_all (format_command location) 124 = strtok_all (cstr (format_command location)) 124
        from by rw [cstr_nul_free _ hx0]]
    rw [show strtok_all (cstr (format_command location)) 124 = fields (format_command location)
      from rfl, htoks]
  rw [hparse]
  refine ⟨hfmt, hloop.1, hloop.2.1, ?_⟩
  rw [hloop.2.2, List.take_of_length_le hlen]

theorem command_wire_roundtrip_witness :
    cstr (str "Arctic") ≠ [] ∧ (cstr (str "Arctic")).length ≤ 49 ∧
    (∀ b ∈ cstr (str "Arctic"), b ≠ 124) ∧
    format_command (str "Arctic") = str "command:launch|target:" ++ cstr (str "Arctic") ∧
    cstr (Silo.parse_command
      (Silo.caesar_decrypt (cstr (caesar_encrypt (format_command (str "Arctic")) BUFFER_SIZE))
        BUFFER_SIZE) (List.replicate 20 7) (List.replicate 50 7)).2.2 = cstr (str "Arctic") :=
  have h := command_wire_roundtrip (str "Arctic") (List.replicate 20 7) (List.replicate 50 7)
    (by decide) (by decide) (by decide)
  ⟨by decide, by decide, by decide, h.1, h.2.2.2⟩

set_option maxRecDepth 100000

/-! ## The connection handler -/

/-- What one iteration of the handler does with a report that `parse_intel`
accepts. -/
theorem handle_message_parsed (buffer : List Nat) (send_result : Nat → SendOutcome) (sv : Server)
    (hparse : (parse_intel (caesar_decrypt buffer BUFFER_SIZE)).1 ≠ 0) :
    handle_message buffer send_result sv =
      if (parse_intel (caesar_decrypt buffer BUFFER_SIZE)).2.threat_level > 70 ∧
          (streq (parse_intel (caesar_decrypt buffer BUFFER_SIZE)).2.source (str "Radar") ∨
           streq (parse_intel (caesar_decrypt buffer BUFFER_SIZE)).2.source (str "Satellite"))
      then
        { server := (send_command_to_clients
            (parse_intel (caesar_decrypt buffer BUFFER_SIZE)).2.location send_result
            { sv with threats_detected := sv.threats_detected + 1 }).1,
          parsed := true,
          dispatched := some (cstr (parse_intel (caesar_decrypt buffer BUFFER_SIZE)).2.location),
          sends := (send_command_to_clients
            (parse_intel (caesar_decrypt buffer BUFFER_SIZE)).2.location send_result
            { sv with threats_detected := sv.threats_detected + 1 }).2.1,
          killed := (send_command_to_clients
            (parse_intel (caesar_decrypt buffer BUFFER_SIZE)).2.location send_result
            { sv with threats_detected := sv.threats_detected + 1 }).2.2 }
      else
        { server := { sv with threats_detected := sv.threats_detected + 1 },
          parsed := true, dispatched := none, sends := [], killed := false } := by
  unfold handle_message
  simp only [hparse, ne_eq, not_false_eq_true, if_true]

theorem streq_iff (a b : List Nat) : streq a b = true ↔ cstr a = cstr b := by
  simp [streq]

theorem cstr_str_radar : cstr (str "Radar") = str "Radar" := by decide

theorem cstr_str_satellite : cstr (str "Satellite") = str "Satellite" := by decide

theorem handle_message_rejected (buffer : List Nat) (send_result : Nat → SendOutcome) (sv : Server)
    (hrej : (parse_intel (caesar_decrypt buffer BUFFER_SIZE)).1 = 0) :
    handle_message buffer send_result sv =
      { server := sv, parsed := false, dispatched := none, sends := [], killed := false } := by
  unfold handle_message
  simp only [hrej, ne_eq, not_true_eq_false, if_false]

theorem cstr_idem (buf : List Nat) : cstr (cstr buf) = cstr buf :=
  cstr_nul_free _ (cstr_nul_free_mem buf)

theorem parse_intel_cstr (message : List Nat) : parse_intel (cstr message) = parse_intel message := by
  unfold parse_intel
  rw [cstr_idem]

/-- C11. For every report that `parse_intel` accepts and whose source is neither
`Radar` nor `Satellite`, the handler does not call `send_command_to_clients`,
whatever the `threat_level`: nothing is sent and `commands_issued` and the slot
table are unchanged.  So it is for a report of source `Sonar` with
`threat_level:90`. -/
theorem no_dispatch_for_other_source (buffer : List Nat) (send_result : Nat → SendOutcome) (sv : Server)
    (hparse : (parse_intel (caesar_decrypt buffer BUFFER_SIZE)).1 ≠ 0)
    (hsrc : cstr (parse_intel (caesar_decrypt buffer BUFFER_SIZE)).2.source ≠ str "Radar" ∧
      cstr (parse_intel (caesar_decrypt buffer BUFFER_SIZE)).2.source ≠ str "Satellite") :
    (handle_message buffer send_result sv).dispatched = none ∧
    (handle_message buffer send_result sv).sends = [] ∧
    (handle_message buffer send_result sv).server.commands_issued = sv.commands_issued ∧
    (handle_message buffer send_result sv).server.clients = sv.clients ∧
    ((handle_message (cstr (caesar_encrypt
        (str "source:Sonar|type:Sea|data:Naval Fleet|threat_level:90|location:Arctic")
        BUFFER_SIZE)) send_result sv).dispatched = none ∧
      (handle_message (cstr (caesar_encrypt
        (str "source:Sonar|type:Sea|data:Naval Fleet|threat_level:90|location:Arctic")
        BUFFER_SIZE)) send_result sv).sends = [] ∧
      (handle_message (cstr (caesar_encrypt
        (str "source:Sonar|type:Sea|data:Naval Fleet|threat_level:90|location:Arctic")
        BUFFER_SIZE)) send_result sv).server.commands_issued = sv.commands_issued) := by
  have hgen : ∀ b : List Nat, (parse_intel (caesar_decrypt b BUFFER_SIZE)).1 ≠ 0 →
      streq (parse_intel (caesar_decrypt b BUFFER_SIZE)).2.source (str "Radar") = false →
      streq (parse_intel (caesar_decrypt b BUFFER_SIZE)).2.source (str "Satellite") = false →
      handle_message b send_result sv =
        { server := { sv with threats_detected := sv.threats_detected + 1 },
          parsed := true, dispatched := none, sends := [], killed := false } := by
    intro b h1 h2 h3
    rw [handle_message_parsed b send_result sv h1, if_neg]
    rintro ⟨-, h | h⟩
    · rw [h2] at h; cases h
    · rw [h3] at h; cases h
  have hr : streq (parse_intel (caesar_decrypt buffer BUFFER_SIZE)).2.source (str "Radar")
      = false := by
    rw [Bool.eq_false_iff]
    intro h
    exact hsrc.1 (((streq_iff _ _).1 h).trans cstr_str_radar)
  have hs : streq (parse_intel (caesar_decrypt buffer BUFFER_SIZE)).2.source (str "Satellite")
      = false := by
    rw [Bool.eq_false_iff]
    intro h
    exact hsrc.2 (((streq_iff _ _).1 h).trans cstr_str_satellite)
  rw [hgen buffer hparse hr hs, hgen _ (by decide) (by decide) (by decide)]
  exact ⟨rfl, rfl, rfl, rfl, rfl, rfl, rfl⟩

theorem no_dispatch_for_other_source_witness :
    (handle_message (cstr (caesar_encrypt
        (str "source:TEST|type:Air|data:Enemy Aircraft|threat_level:99|location:North Atlantic")
        BUFFER_SIZE)) (fun _ => SendOutcome.ok) Server.init).dispatched = none ∧
    (handle_message (cstr (caesar_encrypt
        (str "source:TEST|type:Air|data:Enemy Aircraft|threat_level:99|location:North Atlantic")
        BUFFER_SIZE)) (fun _ => SendOutcome.ok) Server.init).sends = [] :=
  have h := no_dispatch_for_other_source (cstr (caesar_encrypt
        (str "source:TEST|type:Air|data:Enemy Aircraft|threat_level:99|location:North Atlantic")
        BUFFER_SIZE)) (fun _ => SendOutcome.ok) Server.init (by decide) (by decide)
  ⟨h.1, h.2.1⟩

/-- C17. One iteration of the handler on any message that `parse_intel` accepts
increments `threats_detected` by exactly 1, whatever its `threat_level` and
source; when `threat_level <= 70` no command is sent and `commands_issued` is
unchanged.  So it is for the Radar report of location Arctic with
`threat_level:60`. -/
theorem accepted_report_counts_once (buffer : List Nat) (send_result : Nat → SendOutcome) (sv : Server)
    (hparse : (parse_intel (caesar_decrypt buffer BUFFER_SIZE)).1 ≠ 0) :
    (handle_message buffer send_result sv).server.threats_detected = sv.threats_detected + 1 ∧
    ((parse_intel (caesar_decrypt buffer BUFFER_SIZE)).2.threat_level ≤ 70 →
      (handle_message buffer send_result sv).dispatched = none ∧
      (handle_message buffer send_result sv).sends = [] ∧
      (handle_message buffer send_result sv).server.commands_issued = sv.commands_issued) ∧
    ((handle_message (cstr (caesar_encrypt
        (str "source:Radar|type:Air|data:Bomber|threat_level:60|location:Arctic") BUFFER_SIZE))
        send_result sv).server.threats_detected = sv.threats_detected + 1 ∧
      (handle_message (cstr (caesar_encrypt
        (str "source:Radar|type:Air|data:Bomber|threat_level:60|location:Arctic") BUFFER_SIZE))
        send_result sv).sends = [] ∧
      (handle_message (cstr (caesar_encrypt
        (str "source:Radar|type:Air|data:Bomber|threat_level:60|location:Arctic") BUFFER_SIZE))
        send_result sv).server.commands_issued = sv.commands_issued) := by
  have hgen : ∀ b : List Nat, (parse_intel (caesar_decrypt b BUFFER_SIZE)).1 ≠ 0 →
      (parse_intel (caesar_decrypt b BUFFER_SIZE)).2.threat_level ≤ 70 →
      handle_message b send_result sv =
        { server := { sv with threats_detected := sv.threats_detected + 1 },
          parsed := true, dispatched := none, sends := [], killed := false } := by
    intro b h1 h2
    rw [handle_message_parsed b send_result sv h1, if_neg]
    rintro ⟨h, -⟩
    omega
  refine ⟨?_, ?_, ?_⟩
  · rw [handle_message_parsed buffer send_result sv hparse]
    split_ifs <;> rfl
  · intro hle
    rw [hgen buffer hparse hle]
    exact ⟨rfl, rfl, rfl⟩
  · rw [hgen _ (by decide) (by decide)]
    exact ⟨rfl, rfl, rfl⟩

theorem accepted_report_counts_once_witness :
    (handle_message (cstr (caesar_encrypt
        (str "source:Satellite|type:Space|data:Orbital Debris|threat_level:100|location:North Sea")
        BUFFER_SIZE)) (fun _ => SendOutcome.error) Server.init).server.threats_detected = 1 :=
  (accepted_report_counts_once (cstr (caesar_encrypt
        (str "source:Satellite|type:Space|data:Orbital Debris|threat_level:100|location:North Sea")
        BUFFER_SIZE)) (fun _ => SendOutcome.error) Server.init (by decide)).1

/-- C18. A message that `parse_intel` rejects has no effect and is not fatal:
the iteration of the handler's loop that receives it leaves the globals
(`threats_detected`, `commands_issued`, `client_count` and the slot table)
unchanged, sends nothing, and does not leave the loop, so the cleanup that
unregisters the handler does not run. -/
theorem malformed_message_is_dropped (bytes : Int) (buffer : List Nat) (send_result : Nat → SendOutcome)
    (client : Client) (sv : Server) (hbytes : 0 < bytes)
    (hrej : (parse_intel (caesar_decrypt (buffer.take bytes.toNat) BUFFER_SIZE)).1 = 0) :
    (handle_client_iteration true bytes buffer send_result client sv).server = sv ∧
    (handle_client_iteration true bytes buffer send_result client sv).sends = [] ∧
    (handle_client_iteration true bytes buffer send_result client sv).exited = false ∧
    (handle_client_iteration true bytes buffer send_result client sv).client = client := by
  unfold handle_client_iteration
  rw [if_neg (by simp; omega), handle_message_rejected _ send_result sv hrej]
  exact ⟨rfl, rfl, rfl, rfl⟩

theorem malformed_message_is_dropped_witness :
    (handle_client_iteration true 5 (str "khoor") (fun _ => SendOutcome.ok)
      (Client.mk 7 [] 8083 true) Server.init).server = Server.init ∧
    (handle_client_iteration true 5 (str "khoor") (fun _ => SendOutcome.ok)
      (Client.mk 7 [] 8083 true) Server.init).exited = false :=
  have h := malformed_message_is_dropped 5 (str "khoor") (fun _ => SendOutcome.ok)
    (Client.mk 7 [] 8083 true) Server.init (by decide) (by decide)
  ⟨h.1, h.2.2.1⟩

/-! ## Sizes of the buffers of `Intel` -/

theorem strncpy_length (dst src : List Nat) (n : Nat) (h : n ≤ dst.length) :
    (strncpy dst src n).length = dst.length := by
  unfold strncpy
  simp only [List.length_append, List.length_take, List.length_replicate, List.length_drop]
  omega

theorem parse_intel_field_sized (t : List Nat) (intel : Intel) (n : Int)
    (h : intel.source.length = 20 ∧ intel.type.length = 20 ∧ intel.data.length = 256 ∧
      intel.location.length = 50) :
    match parse_intel_field t intel n with
    | .error i => i.source.length = 20 ∧ i.type.length = 20 ∧ i.data.length = 256 ∧
        i.location.length = 50
    | .ok r => r.1.source.length = 20 ∧ r.1.type.length = 20 ∧ r.1.data.length = 256 ∧
        r.1.location.length = 50 := by
  obtain ⟨h1, h2, h3, h4⟩ := h
  unfold parse_intel_field
  cases strchr t 58 with
  | none => exact ⟨h1, h2, h3, h4⟩
  | some colon =>
    simp only []
    split_ifs
    · exact ⟨h1, h2, h3, h4⟩
    · exact ⟨by rw [strncpy_length _ _ _ (by omega)]; exact h1, h2, h3, h4⟩
    · exact ⟨h1, by rw [strncpy_length _ _ _ (by omega)]; exact h2, h3, h4⟩
    · exact ⟨h1, h2, by rw [strncpy_length _ _ _ (by omega)]; exact h3, h4⟩
    · exact ⟨h1, h2, h3, h4⟩
    · exact ⟨h1, h2, h3, h4⟩
    · exact ⟨h1, h2, h3, by rw [strncpy_length _ _ _ (by omega)]; exact h4⟩
    · exact ⟨h1, h2, h3, h4⟩

theorem parse_intel_loop_sized (toks : List (List Nat)) :
    ∀ (intel : Intel) (n : Int),
      (intel.source.length = 20 ∧ intel.type.length = 20 ∧ intel.data.length = 256 ∧
        intel.location.length = 50) →
      ((parse_intel_loop toks intel n).2.source.length = 20 ∧
        (parse_intel_loop toks intel n).2.type.length = 20 ∧
        (parse_intel_loop toks intel n).2.data.length = 256 ∧
        (parse_intel_loop toks intel n).2.location.length = 50) := by
  induction toks with
  | nil => intro intel n h; exact h
  | cons t ts ih =>
    intro intel n h
    have hf := parse_intel_field_sized t intel n h
    rw [parse_intel_loop]
    cases hp : parse_intel_field t intel n with
    | error e =>
      rw [hp] at hf
      exact hf
    | ok r =>
      rw [hp] at hf
      exact ih r.1 r.2 hf

/-- Whatever the message, the four buffers of the `Intel` keep their sizes. -/
theorem parse_intel_sized (message : List Nat) :
    (parse_intel message).2.source.length = 20 ∧ (parse_intel message).2.type.length = 20 ∧
    (parse_intel message).2.data.length = 256 ∧ (parse_intel message).2.location.length = 50 :=
  parse_intel_loop_sized _ Intel.zero 0 (by decide)

theorem cstr_length_le (buf : List Nat) : (cstr buf).length ≤ buf.length :=
  (List.takeWhile_sublist _).length_le

theorem format_command_eq (location : List Nat) (h : (cstr location).length ≤ 233) :
    format_command location = str "command:launch|target:" ++ cstr location := by
  unfold format_command
  apply List.take_of_length_le
  rw [List.length_append]
  have : (str "command:launch|target:").length = 22 := by decide
  omega

/-! ## The registry -/

theorem register_loop_full (client : Client) (cs : List Client)
    (h : ∀ c ∈ cs, c.valid = true) : register_loop client cs = none := by
  induction cs with
  | nil => rfl
  | cons c cs ih =>
    have hc : c.valid = true := h c (List.mem_cons_self _ _)
    simp [register_loop, hc, ih (fun d hd => h d (List.mem_cons_of_mem _ hd))]

theorem register_loop_free (client : Client) (cs : List Client)
    (h : ∃ c ∈ cs, c.valid = false) :
    ∃ i c0, cs[i]? = some c0 ∧ c0.valid = false ∧
      (∀ j c1, j < i → cs[j]? = some c1 → c1.valid = true) ∧
      register_loop client cs = some (cs.set i client) := by
  induction cs with
  | nil => simp at h
  | cons c cs ih =>
    by_cases hc : c.valid = true
    · have hex : ∃ d ∈ cs, d.valid = false := by
        obtain ⟨d, hd, hv⟩ := h
        rcases List.mem_cons.1 hd with rfl | hd
        · rw [hc] at hv; cases hv
        · exact ⟨d, hd, hv⟩
      obtain ⟨i, c0, h1, h2, h3, h4⟩ := ih hex
      refine ⟨i + 1, c0, by simpa using h1, h2, ?_, by simp [register_loop, hc, h4]⟩
      intro j c1 hj hget
      cases j with
      | zero =>
        simp only [List.getElem?_cons_zero, Option.some.injEq] at hget
        rw [← hget]; exact hc
      | succ j =>
        simp only [List.getElem?_cons_succ] at hget
        exact h3 j c1 (by omega) hget
    · have hc' : c.valid = false := by simpa using hc
      refine ⟨0, c, by simp, hc', ?_, by simp [register_loop, hc']⟩
      intro j c1 hj
      omega

theorem register_loop_length (client : Client) (cs r : List Client)
    (h : register_loop client cs = some r) : r.length = cs.length := by
  induction cs generalizing r with
  | nil => simp [register_loop] at h
  | cons c cs ih =>
    by_cases hc : c.valid = true
    · simp only [register_loop, hc, if_true, Option.map_eq_some'] at h
      obtain ⟨r1, h1, rfl⟩ := h
      simp [ih r1 h1]
    · have hc' : c.valid = false := by simpa using hc
      simp only [register_loop, hc', Bool.false_eq_true, if_false, Option.some.injEq] at h
      subst h
      simp

theorem accept_clients_register_length (client : Client) (sv : Server) :
    (accept_clients_register client sv).1.clients.length = sv.clients.length := by
  unfold accept_clients_register
  cases h : register_loop client sv.clients with
  | none => rfl
  | some r => exact register_loop_length client sv.clients r h

/-- C12. The registration of `accept_clients` never disturbs a valid slot.  When
every slot is valid the attempt is rejected: `added` is 0 and the slot table and
`client_count` are unchanged.  Otherwise the peer is copied into the first slot
that is not valid, every other slot is unchanged, `client_count` grows by
exactly 1 and `added` is 1.  The table keeps its 4 slots, so it never holds more
than 4 valid peers. -/
theorem registration_keeps_valid_slots (client : Client) (sv : Server)
    (hlen : sv.clients.length = MAX_CLIENTS) :
    ((∀ c ∈ sv.clients, c.valid = true) → accept_clients_register client sv = (sv, 0)) ∧
    ((∃ c ∈ sv.clients, c.valid = false) →
      ∃ i c0, sv.clients[i]? = some c0 ∧ c0.valid = false ∧
        (∀ j c1, j < i → sv.clients[j]? = some c1 → c1.valid = true) ∧
        accept_clients_register client sv =
          (Server.mk (sv.clients.set i client) (sv.client_count + 1) sv.threats_detected
            sv.commands_issued, 1)) ∧
    (accept_clients_register client sv).1.clients.length = 4 ∧
    valid_count (accept_clients_register client sv).1 ≤ 4 := by
  have hl : (accept_clients_register client sv).1.clients.length = 4 := by
    rw [accept_clients_register_length, hlen]; rfl
  refine ⟨?_, ?_, hl, ?_⟩
  · intro h
    unfold accept_clients_register
    rw [register_loop_full client sv.clients h]
  · intro h
    obtain ⟨i, c0, h1, h2, h3, h4⟩ := register_loop_free client sv.clients h
    refine ⟨i, c0, h1, h2, h3, ?_⟩
    unfold accept_clients_register
    rw [h4]
  · unfold valid_count
    exact le_trans (List.countP_le_length _) (le_of_eq hl)

theorem registration_keeps_valid_slots_witness :
    accept_clients_register (Client.mk 9 [] 8083 true)
      (Server.mk [Client.mk 4 [] 8081 true, Client.mk 0 [] 0 false, Client.mk 6 [] 8084 true,
        Client.mk 0 [] 0 false] 2 0 0) =
      (Server.mk [Client.mk 4 [] 8081 true, Client.mk 9 [] 8083 true, Client.mk 6 [] 8084 true,
        Client.mk 0 [] 0 false] 3 0 0, 1) ∧
    accept_clients_register (Client.mk 9 [] 8083 true)
      (Server.mk [Client.mk 4 [] 8081 true, Client.mk 5 [] 8082 true, Client.mk 6 [] 8084 true,
        Client.mk 7 [] 8083 true] 4 0 0) =
      (Server.mk [Client.mk 4 [] 8081 true, Client.mk 5 [] 8082 true, Client.mk 6 [] 8084 true,
        Client.mk 7 [] 8083 true] 4 0 0, 0) :=
  ⟨by
    obtain ⟨i, c0, h1, h2, h3, h4⟩ := (registration_keeps_valid_slots (Client.mk 9 [] 8083 true)
      (Server.mk [Client.mk 4 [] 8081 true, Client.mk 0 [] 0 false, Client.mk 6 [] 8084 true,
        Client.mk 0 [] 0 false] 2 0 0) (by decide)).2.1 (by decide)
    decide,
   (registration_keeps_valid_slots (Client.mk 9 [] 8083 true)
      (Server.mk [Client.mk 4 [] 8081 true, Client.mk 5 [] 8082 true, Client.mk 6 [] 8084 true,
        Client.mk 7 [] 8083 true] 4 0 0) (by decide)).1 (by decide)⟩

/-- C13 (the code at the failing input). Four peers are registered, one per
port, and their handlers run.  Whichever handler exits, its cleanup lowers
`client_count` to 3 but leaves the four slots of `clients[]` valid, because it
writes `valid = false` to the handler's own struct; the next registration
attempt is rejected (`added` is 0). -/
theorem exit_does_not_free_slot (k : Fin 4) :
    valid_count (handler_exit k.val (registry_run
      [.accept 4 [] 8081 true, .accept 5 [] 8082 true, .accept 6 [] 8083 true,
        .accept 7 [] 8084 true] Node.init)).server = 4 ∧
    (handler_exit k.val (registry_run
      [.accept 4 [] 8081 true, .accept 5 [] 8082 true, .accept 6 [] 8083 true,
        .accept 7 [] 8084 true] Node.init)).server.client_count = 3 ∧
    (accept_clients_iteration 8 [] 8083 true (handler_exit k.val (registry_run
      [.accept 4 [] 8081 true, .accept 5 [] 8082 true, .accept 6 [] 8083 true,
        .accept 7 [] 8084 true] Node.init))).2 = 0 := by
  revert k
  decide

/-- C14 (the code at the failing input). From the empty registry, one accepted
peer whose handler then exits leaves one slot marked valid while `client_count`
is 0; the same happens when the thread of the accepted peer cannot be created
and the registration is rolled back. -/
theorem valid_slots_differ_from_count :
    valid_count Node.init.server = 0 ∧ Node.init.server.client_count = 0 ∧
    valid_count (registry_run [.accept 5 [] 8083 true, .exit 0] Node.init).server = 1 ∧
    (registry_run [.accept 5 [] 8083 true, .exit 0] Node.init).server.client_count = 0 ∧
    valid_count (registry_run [.accept 5 [] 8083 false] Node.init).server = 1 ∧
    (registry_run [.accept 5 [] 8083 false] Node.init).server.client_count = 0 := by
  decide

/-- C19 (the code at the failing input). The digits `4294967381` in the
`threat_level` field are accepted and stored as 85: `strtol` returns the value
as a `long`, and the conversion to `int` drops the bits above the 32nd before
the test `threat_level < 0`. -/
theorem parse_intel_wraps_large_threat :
    strtol (str "4294967381") = (4294967381, []) ∧
    (parse_intel
      (str "source:Radar|type:Air|data:Bomber|threat_level:4294967381|location:Arctic")).1
      = 1 ∧
    (parse_intel
      (str "source:Radar|type:Air|data:Bomber|threat_level:4294967381|location:Arctic")).2.threat_level
      = 85 := by
  decide

/-! ## The satellite's reports -/

/-- The five required fields in the order of the struct: what `parse_intel`
returns and stores. -/
theorem parse_intel_five_fields (vs vt vd vn vl : List Nat)
    (hs : vs ≠ [] ∧ ∀ c ∈ vs, c ≠ 0 ∧ c ≠ 124)
    (ht : vt ≠ [] ∧ ∀ c ∈ vt, c ≠ 0 ∧ c ≠ 124)
    (hd : vd ≠ [] ∧ ∀ c ∈ vd, c ≠ 0 ∧ c ≠ 124)
    (hl : vl ≠ [] ∧ ∀ c ∈ vl, c ≠ 0 ∧ c ≠ 124)
    (hn : vn ≠ [] ∧ (∀ c ∈ vn, isdigit c = true) ∧ digits_value vn ≤ 2147483647) :
    parse_intel (join_fields [field KEY_SOURCE vs, field KEY_TYPE vt, field KEY_DATA vd,
      field KEY_THREAT_LEVEL vn, field KEY_LOCATION vl]) =
    (1, Intel.mk (strncpy (List.replicate 20 0) vs 19) (strncpy (List.replicate 20 0) vt 19)
      (strncpy (List.replicate 256 0) vd 255) (digits_value vn)
      (strncpy (List.replicate 50 0) vl 49)) := by
  have hclean : ∀ t ∈ [field KEY_SOURCE vs, field KEY_TYPE vt, field KEY_DATA vd,
      field KEY_THREAT_LEVEL vn, field KEY_LOCATION vl],
      t ≠ [] ∧ ∀ c ∈ t, c ≠ 124 ∧ c ≠ 0 := by
    intro t htm
    simp only [List.mem_cons, List.mem_singleton, List.not_mem_nil, or_false] at htm
    rcases htm with rfl | rfl | rfl | rfl | rfl
    · exact field_clean _ _ (by decide) hs.2
    · exact field_clean _ _ (by decide) ht.2
    · exact field_clean _ _ (by decide) hd.2
    · exact field_clean _ _ (by decide) (digit_clean vn hn.2.1)
    · exact field_clean _ _ (by decide) hl.2
  have hfold := parse_intel_fold_perm _ vs vt vd vn vl (List.Perm.refl _) hs.1 ht.1 hd.1 hl.1 hn
  have hloop := parse_intel_loop_of_fold _ _ _ _ hfold
  unfold parse_intel
  rw [show strtok_all (cstr (join_fields [field KEY_SOURCE vs, field KEY_TYPE vt,
      field KEY_DATA vd, field KEY_THREAT_LEVEL vn, field KEY_LOCATION vl])) 124
    = fields (join_fields [field KEY_SOURCE vs, field KEY_TYPE vt, field KEY_DATA vd,
      field KEY_THREAT_LEVEL vn, field KEY_LOCATION vl]) from rfl,
    fields_join _ hclean, hloop]
  simp

namespace Satellite

theorem caesar_encrypt_eq (plaintext : List Nat) (len : Nat) :
    caesar_encrypt plaintext len = NuclearSim.caesar_encrypt plaintext len := rfl

theorem threat_types_ok : ∀ j, j < 3 →
    threat_types.getD j [] ≠ [] ∧ (threat_types.getD j []).length ≤ 5 ∧
    ∀ c ∈ threat_types.getD j [], c ≠ 0 ∧ c ≠ 124 := by
  decide

theorem threat_data_ok : ∀ j, j < 4 →
    threat_data.getD j [] ≠ [] ∧ (threat_data.getD j []).length ≤ 17 ∧
    ∀ c ∈ threat_data.getD j [], c ≠ 0 ∧ c ≠ 124 := by
  decide

theorem locations_ok : ∀ j, j < 4 →
    locations.getD j [] ≠ [] ∧ (locations.getD j []).length ≤ 13 ∧
    ∀ c ∈ locations.getD j [], c ≠ 0 ∧ c ≠ 124 := by
  decide

theorem format_d_ok : ∀ n : Nat, n < 101 → 10 ≤ n →
    format_d (n : Int) ≠ [] ∧ (format_d (n : Int)).length ≤ 3 ∧
    (∀ c ∈ format_d (n : Int), isdigit c = true) ∧ digits_value (format_d (n : Int)) = n := by
  decide

theorem threat_level_range (r3 r4 : Nat) :
    ∃ n : Nat, 10 ≤ n ∧ n < 101 ∧
      (if r3 % 100 < 30 then (71 : Int) + (r4 % 30 : Nat) else 10 + (r4 % 61 : Nat)) = (n : Int) := by
  split_ifs
  · exact ⟨71 + r4 % 30, by omega, by omega, by push_cast; ring⟩
  · exact ⟨10 + r4 % 61, by omega, by omega, by push_cast; ring⟩

theorem formatted_eq_join (ty data dg loc : List Nat) :
    str "source:Satellite|type:" ++ ty ++ str "|data:" ++ data
      ++ str "|threat_level:" ++ dg ++ str "|location:" ++ loc =
    join_fields [field KEY_SOURCE (str "Satellite"), field KEY_TYPE ty, field KEY_DATA data,
      field KEY_THREAT_LEVEL dg, field KEY_LOCATION loc] := by
  have e1 : str "source:Satellite|type:" =
      KEY_SOURCE ++ 58 :: (str "Satellite" ++ 124 :: (KEY_TYPE ++ [58])) := by decide
  have e2 : str "|data:" = 124 :: (KEY_DATA ++ [58]) := by decide
  have e3 : str "|threat_level:" = 124 :: (KEY_THREAT_LEVEL ++ [58]) := by decide
  have e4 : str "|location:" = 124 :: (KEY_LOCATION ++ [58]) := by decide
  rw [e1, e2, e3, e4]
  simp [join_fields, field, List.append_assoc]

end Satellite

/-- C20. Every Intel message the satellite builds is accepted by the control
node.  Whatever the four values of `rand` in `send_intel`, the generated
`threat_level` lies in 10..100, the formatted text has at most 511 bytes, so it
is stored whole in `message[512]`, and `parse_intel` applied to the control
node's `caesar_decrypt` of the bytes sent (the satellite's `caesar_encrypt` of
the text) returns 1 and stores source `Satellite` and the generated type, data,
`threat_level` and location. -/
theorem satellite_report_accepted (r1 r2 r3 r4 : Nat) :
    10 ≤ (Satellite.send_intel r1 r2 r3 r4).threat_level ∧
    (Satellite.send_intel r1 r2 r3 r4).threat_level ≤ 100 ∧
    (Satellite.send_intel r1 r2 r3 r4).formatted.length ≤ 511 ∧
    (Satellite.send_intel r1 r2 r3 r4).message = (Satellite.send_intel r1 r2 r3 r4).formatted ∧
    (parse_intel (caesar_decrypt (cstr (Satellite.send_intel r1 r2 r3 r4).ciphertext)
      BUFFER_SIZE)).1 = 1 ∧
    cstr (parse_intel (caesar_decrypt (cstr (Satellite.send_intel r1 r2 r3 r4).ciphertext)
      BUFFER_SIZE)).2.source = str "Satellite" ∧
    cstr (parse_intel (caesar_decrypt (cstr (Satellite.send_intel r1 r2 r3 r4).ciphertext)
      BUFFER_SIZE)).2.type = (Satellite.send_intel r1 r2 r3 r4).type ∧
    cstr (parse_intel (caesar_decrypt (cstr (Satellite.send_intel r1 r2 r3 r4).ciphertext)
      BUFFER_SIZE)).2.data = (Satellite.send_intel r1 r2 r3 r4).data ∧
    (parse_intel (caesar_decrypt (cstr (Satellite.send_intel r1 r2 r3 r4).ciphertext)
      BUFFER_SIZE)).2.threat_level = (Satellite.send_intel r1 r2 r3 r4).threat_level ∧
    cstr (parse_intel (caesar_decrypt (cstr (Satellite.send_intel r1 r2 r3 r4).ciphertext)
      BUFFER_SIZE)).2.location = (Satellite.send_intel r1 r2 r3 r4).location ∧
    (Satellite.send_intel r1 r2 r3 r4).type = Satellite.threat_types.getD (r2 % 3) [] ∧
    (Satellite.send_intel r1 r2 r3 r4).data = Satellite.threat_data.getD (r1 % 4) [] ∧
    (Satellite.send_intel r1 r2 r3 r4).location = Satellite.locations.getD (r1 % 4) [] := by
  obtain ⟨n, hn1, hn2, hn⟩ := Satellite.threat_level_range r3 r4
  obtain ⟨ht1, ht2, ht3⟩ := Satellite.threat_types_ok (r2 % 3) (Nat.mod_lt _ (by decide))
  obtain ⟨hd1, hd2, hd3⟩ := Satellite.threat_data_ok (r1 % 4) (Nat.mod_lt _ (by decide))
  obtain ⟨hl1, hl2, hl3⟩ := Satellite.locations_ok (r1 % 4) (Nat.mod_lt _ (by decide))
  obtain ⟨hg1, hg2, hg3, hg4⟩ := Satellite.format_d_ok n hn2 hn1
  simp only [Satellite.send_intel, hn]
  generalize Satellite.threat_types.getD (r2 % 3) [] = ty at ht1 ht2 ht3 ⊢
  generalize Satellite.threat_data.getD (r1 % 4) [] = data at hd1 hd2 hd3 ⊢
  generalize Satellite.locations.getD (r1 % 4) [] = loc at hl1 hl2 hl3 ⊢
  generalize Satellite.format_d (n : Int) = dg at hg1 hg2 hg3 hg4 ⊢
  have hlen : (str "source:Satellite|type:" ++ ty ++ str "|data:" ++ data
      ++ str "|threat_level:" ++ dg ++ str "|location:" ++ loc).length ≤ 511 := by
    have a1 : (str "source:Satellite|type:").length = 22 := by decide
    have a2 : (str "|data:").length = 6 := by decide
    have a3 : (str "|threat_level:").length = 14 := by decide
    have a4 : (str "|location:").length = 10 := by decide
    simp only [List.length_append, a1, a2, a3, a4]
    omega
  have hmsg := List.take_of_length_le hlen
  rw [hmsg, Satellite.formatted_eq_join] at *
  have hparse := parse_intel_five_fields (str "Satellite") ty data dg loc (by decide)
    ⟨ht1, ht3⟩ ⟨hd1, hd3⟩ ⟨hl1, hl3⟩ ⟨hg1, hg3, by omega⟩
  have hnul : ∀ c ∈ join_fields [field KEY_SOURCE (str "Satellite"), field KEY_TYPE ty,
      field KEY_DATA data, field KEY_THREAT_LEVEL dg, field KEY_LOCATION loc], c ≠ 0 := by
    apply join_fields_nul_free
    intro t htm
    simp only [List.mem_cons, List.mem_singleton, List.not_mem_nil, or_false] at htm
    rcases htm with rfl | rfl | rfl | rfl | rfl
    · exact fun c hc => ((field_clean _ _ (by decide) (by decide)).2 c hc).2
    · exact fun c hc => ((field_clean _ _ (by decide) ht3).2 c hc).2
    · exact fun c hc => ((field_clean _ _ (by decide) hd3).2 c hc).2
    · exact fun c hc => ((field_clean _ _ (by decide) (digit_clean dg hg3)).2 c hc).2
    · exact fun c hc => ((field_clean _ _ (by decide) hl3).2 c hc).2
  have hrt := caesar_roundtrip_bytes _ hnul (by omega)
  rw [Satellite.caesar_encrypt_eq, ← parse_intel_cstr, hrt, hparse]
  refine ⟨by omega, by omega, hlen, rfl, rfl, ?_, ?_, ?_, ?_, ?_, ?_⟩
  · exact cstr_strncpy_zero _ 19 20 (by decide) (by decide) (by decide)
  · exact cstr_strncpy_zero ty 19 20 (fun c hc => (ht3 c hc).1) (by omega) (by decide)
  · exact cstr_strncpy_zero data 255 256 (fun c hc => (hd3 c hc).1) (by omega) (by decide)
  · show (digits_value dg : Int) = n
    exact_mod_cast hg4
  · exact cstr_strncpy_zero loc 49 50 (fun c hc => (hl3 c hc).1) (by omega) (by decide)
  · exact ⟨trivial, trivial, trivial⟩

/-! ## What `parse_intel` leaves in the buffers of `Intel` -/

theorem strncpy_drop (dst src : List Nat) (n : Nat) :
    (strncpy dst src n).drop n = dst.drop n := by
  unfold strncpy
  apply List.drop_left'
  simp only [List.length_append, List.length_take, List.length_replicate]
  omega

theorem cstr_strncpy_terminated (dst v : List Nat) (n : Nat) (hv : ∀ c ∈ v, c ≠ 0)
    (hd : dst.drop n = [0]) : cstr (strncpy dst v n) = v.take n := by
  rw [cstr_strncpy dst v n hv, hd]
  split_ifs with h
  · rw [List.take_of_length_le (by omega)]
  · simp [cstr]

/-- Each iteration of the loop leaves a buffer of `Intel` as it was or copies
into it, with `strncpy`, the value of the token, whose key is then the key of
that buffer. -/
theorem parse_intel_field_writes (t : List Nat) (intel : Intel) (n : Int) :
    match parse_intel_field t intel n with
    | .error i =>
      (i.source = intel.source ∨
        ∃ v, t = field KEY_SOURCE v ∧ i.source = strncpy intel.source v 19) ∧
      (i.type = intel.type ∨ ∃ v, t = field KEY_TYPE v ∧ i.type = strncpy intel.type v 19) ∧
      (i.data = intel.data ∨ ∃ v, t = field KEY_DATA v ∧ i.data = strncpy intel.data v 255) ∧
      (i.location = intel.location ∨
        ∃ v, t = field KEY_LOCATION v ∧ i.location = strncpy intel.location v 49)
    | .ok r =>
      (r.1.source = intel.source ∨
        ∃ v, t = field KEY_SOURCE v ∧ r.1.source = strncpy intel.source v 19) ∧
      (r.1.type = intel.type ∨
        ∃ v, t = field KEY_TYPE v ∧ r.1.type = strncpy intel.type v 19) ∧
      (r.1.data = intel.data ∨
        ∃ v, t = field KEY_DATA v ∧ r.1.data = strncpy intel.data v 255) ∧
      (r.1.location = intel.location ∨
        ∃ v, t = field KEY_LOCATION v ∧ r.1.location = strncpy intel.location v 49) := by
  unfold parse_intel_field
  cases hs : strchr t 58 with
  | none => exact ⟨Or.inl rfl, Or.inl rfl, Or.inl rfl, Or.inl rfl⟩
  | some colon =>
    obtain ⟨-, ht⟩ := strchr_split t colon hs
    simp only []
    split_ifs with h0 h1 h2 h3 h4 h5 h6
    · exact ⟨Or.inl rfl, Or.inl rfl, Or.inl rfl, Or.inl rfl⟩
    · exact ⟨Or.inr ⟨_, h1 ▸ ht, rfl⟩, Or.inl rfl, Or.inl rfl, Or.inl rfl⟩
    · exact ⟨Or.inl rfl, Or.inr ⟨_, h2 ▸ ht, rfl⟩, Or.inl rfl, Or.inl rfl⟩
    · exact ⟨Or.inl rfl, Or.inl rfl, Or.inr ⟨_, h3 ▸ ht, rfl⟩, Or.inl rfl⟩
    · exact ⟨Or.inl rfl, Or.inl rfl, Or.inl rfl, Or.inl rfl⟩
    · exact ⟨Or.inl rfl, Or.inl rfl, Or.inl rfl, Or.inl rfl⟩
    · exact ⟨Or.inl rfl, Or.inl rfl, Or.inl rfl, Or.inr ⟨_, h6 ▸ ht, rfl⟩⟩
    · exact ⟨Or.inl rfl, Or.inl rfl, Or.inl rfl, Or.inl rfl⟩

/-- The loop seen from one buffer `get` of size `n + 1` with key `key`: the byte
`n` stays NUL, and the string stored at the end is the one stored at the start
or the first `n` bytes of the value of a field with that key. -/
theorem parse_intel_loop_buffer (get : Intel → List Nat) (key : List Nat) (n : Nat)
    (hstep : ∀ (t : List Nat) (intel : Intel) (m : Int),
      match parse_intel_field t intel m with
      | .error i => get i = get intel ∨ ∃ v, t = field key v ∧ get i = strncpy (get intel) v n
      | .ok r => get r.1 = get intel ∨ ∃ v, t = field key v ∧ get r.1 = strncpy (get intel) v n)
    (toks : List (List Nat)) (hnul : ∀ t ∈ toks, ∀ c ∈ t, c ≠ 0) :
    ∀ (intel : Intel) (m : Int), (get intel).drop n = [0] →
      (get (parse_intel_loop toks intel m).2).drop n = [0] ∧
      (cstr (get (parse_intel_loop toks intel m).2) = cstr (get intel) ∨
        ∃ v, field key v ∈ toks ∧ cstr (get (parse_intel_loop toks intel m).2) = v.take n) := by
  induction toks with
  | nil => intro intel m h; exact ⟨h, Or.inl rfl⟩
  | cons t ts ih =>
    intro intel m h
    have hts : ∀ x ∈ ts, ∀ c ∈ x, c ≠ 0 := fun x hx => hnul x (List.mem_cons_of_mem _ hx)
    have hone : ∀ i : Intel,
        (get i = get intel ∨ ∃ v, t = field key v ∧ get i = strncpy (get intel) v n) →
        (get i).drop n = [0] ∧
        (cstr (get i) = cstr (get intel) ∨
          ∃ v, field key v ∈ t :: ts ∧ cstr (get i) = v.take n) := by
      intro i hi
      rcases hi with hi | ⟨v, hv, hi⟩
      · rw [hi]; exact ⟨h, Or.inl rfl⟩
      · have hvn : ∀ c ∈ v, c ≠ 0 := by
          intro c hc
          apply hnul t (List.mem_cons_self _ _)
          rw [hv]
          simp [field, hc]
        rw [hi]
        exact ⟨by rw [strncpy_drop]; exact h,
          Or.inr ⟨v, by rw [hv]; exact List.mem_cons_self _ _,
            cstr_strncpy_terminated _ v n hvn h⟩⟩
    have hs := hstep t intel m
    rw [parse_intel_loop]
    cases hp : parse_intel_field t intel m with
    | error e =>
      rw [hp] at hs
      exact hone e hs
    | ok r =>
      rw [hp] at hs
      obtain ⟨h1, h2⟩ := hone r.1 hs
      obtain ⟨h3, h4⟩ := ih hts r.1 r.2 h1
      refine ⟨h3, ?_⟩
      rcases h4 with h4 | ⟨v, hv, h4⟩
      · rcases h2 with h2 | ⟨v, hv, h2⟩
        · exact Or.inl (h4.trans h2)
        · exact Or.inr ⟨v, hv, h4.trans h2⟩
      · exact Or.inr ⟨v, List.mem_cons_of_mem _ hv, h4⟩

theorem terminated_of_drop (buf : List Nat) (n : Nat) (h : buf.drop n = [0]) :
    buf.length = n + 1 ∧ buf[n]? = some 0 ∧ (cstr buf).length ≤ n := by
  have hlen : buf.length = n + 1 := by
    have := congrArg List.length h
    simp only [List.length_drop, List.length_cons, List.length_nil] at this
    omega
  have hget : buf[n]? = some 0 := by
    have := congrArg (fun l : List Nat => l[0]?) h
    simpa [List.getElem?_drop] using this
  refine ⟨hlen, hget, ?_⟩
  by_contra hc
  have hlt : n < (cstr buf).length := by omega
  have hmem : (cstr buf)[n]? = some 0 := by
    have hpre : (cstr buf) <+: buf := List.takeWhile_prefix _
    obtain ⟨s, hs⟩ := hpre
    have : buf[n]? = (cstr buf ++ s)[n]? := by rw [hs]
    rw [List.getElem?_append_left hlt] at this
    rw [← this, hget]
  have h0 : (0 : Nat) ∈ cstr buf := List.getElem?_mem hmem
  exact cstr_nul_free_mem buf 0 h0 rfl

/-- What `parse_intel` leaves in one buffer of `Intel`, for every message. -/
theorem parse_intel_buffer (get : Intel → List Nat) (key : List Nat) (n : Nat)
    (hstep : ∀ (t : List Nat) (intel : Intel) (m : Int),
      match parse_intel_field t intel m with
      | .error i => get i = get intel ∨ ∃ v, t = field key v ∧ get i = strncpy (get intel) v n
      | .ok r => get r.1 = get intel ∨ ∃ v, t = field key v ∧ get r.1 = strncpy (get intel) v n)
    (hzero : get Intel.zero = List.replicate (n + 1) 0) (message : List Nat) :
    (get (parse_intel message).2).length = n + 1 ∧
    (get (parse_intel message).2)[n]? = some 0 ∧
    (cstr (get (parse_intel message).2)).length ≤ n ∧
    (cstr (get (parse_intel message).2) = [] ∨
      ∃ v, field key v ∈ fields message ∧ cstr (get (parse_intel message).2) = v.take n) ∧
    (∀ v0, field key v0 ∈ fields message →
      ∃ v, field key v ∈ fields message ∧ cstr (get (parse_intel message).2) <+: v) := by
  have hd0 : (get Intel.zero).drop n = [0] := by
    rw [hzero, List.drop_replicate]
    simp
  have hc0 : cstr (get Intel.zero) = [] := by
    rw [hzero, List.replicate_succ]
    simp [cstr]
  obtain ⟨h1, h2⟩ := parse_intel_loop_buffer get key n hstep (fields message)
    (fields_nul_free message) Intel.zero 0 hd0
  have hp : parse_intel message = parse_intel_loop (fields message) Intel.zero 0 := rfl
  rw [hp]
  obtain ⟨h3, h4, h5⟩ := terminated_of_drop _ n h1
  refine ⟨h3, h4, h5, ?_, ?_⟩
  · rcases h2 with h2 | h2
    · exact Or.inl (h2.trans hc0)
    · exact Or.inr h2
  · intro v0 hv0
    rcases h2 with h2 | ⟨v, hv, h2⟩
    · exact ⟨v0, hv0, by rw [h2, hc0]; exact List.nil_prefix⟩
    · exact ⟨v, hv, by rw [h2]; exact List.take_prefix _ _⟩

/-- C21. `parse_intel` never writes past a field of `Intel`.  For every message,
whether the call returns 1 or 0, each of `source`, `type`, `data` and `location`
keeps its size (20, 20, 256 and 50 bytes), its last byte is NUL, so the stored
string has at most 19, 19, 255 and 49 bytes, and the stored string is empty or
is the value of a field of the message with that key, cut to that many bytes;
so whenever the message gives a value for the key, the stored string is a
prefix of a value given for it.  A value that is too long is cut and not
rejected, and when a key occurs twice with values of different lengths the
later value replaces the earlier whole. -/
theorem parse_intel_stays_in_fields (message : List Nat) :
    ((parse_intel message).2.source.length = 20 ∧
      (parse_intel message).2.source[19]? = some 0 ∧
      (cstr (parse_intel message).2.source).length ≤ 19 ∧
      (cstr (parse_intel message).2.source = [] ∨
        ∃ v, field KEY_SOURCE v ∈ fields message ∧
          cstr (parse_intel message).2.source = v.take 19) ∧
      (∀ v0, field KEY_SOURCE v0 ∈ fields message →
        ∃ v, field KEY_SOURCE v ∈ fields message ∧ cstr (parse_intel message).2.source <+: v)) ∧
    ((parse_intel message).2.type.length = 20 ∧
      (parse_intel message).2.type[19]? = some 0 ∧
      (cstr (parse_intel message).2.type).length ≤ 19 ∧
      (cstr (parse_intel message).2.type = [] ∨
        ∃ v, field KEY_TYPE v ∈ fields message ∧
          cstr (parse_intel message).2.type = v.take 19) ∧
      (∀ v0, field KEY_TYPE v0 ∈ fields message →
        ∃ v, field KEY_TYPE v ∈ fields message ∧ cstr (parse_intel message).2.type <+: v)) ∧
    ((parse_intel message).2.data.length = 256 ∧
      (parse_intel message).2.data[255]? = some 0 ∧
      (cstr (parse_intel message).2.data).length ≤ 255 ∧
      (cstr (parse_intel message).2.data = [] ∨
        ∃ v, field KEY_DATA v ∈ fields message ∧
          cstr (parse_intel message).2.data = v.take 255) ∧
      (∀ v0, field KEY_DATA v0 ∈ fields message →
        ∃ v, field KEY_DATA v ∈ fields message ∧ cstr (parse_intel message).2.data <+: v)) ∧
    ((parse_intel message).2.location.length = 50 ∧
      (parse_intel message).2.location[49]? = some 0 ∧
      (cstr (parse_intel message).2.location).length ≤ 49 ∧
      (cstr (parse_intel message).2.location = [] ∨
        ∃ v, field KEY_LOCATION v ∈ fields message ∧
          cstr (parse_intel message).2.location = v.take 49) ∧
      (∀ v0, field KEY_LOCATION v0 ∈ fields message →
        ∃ v, field KEY_LOCATION v ∈ fields message ∧ cstr (parse_intel message).2.location <+: v)) ∧
    ((parse_intel (str
        "source:ABCDEFGHIJKLMNOPQRSTUVWXYZ|type:Air|data:Bomber|threat_level:85|location:Arctic")).1
        = 1 ∧
      cstr (parse_intel (str
        "source:ABCDEFGHIJKLMNOPQRSTUVWXYZ|type:Air|data:Bomber|threat_level:85|location:Arctic")).2.source
        = str "ABCDEFGHIJKLMNOPQRS") ∧
    ((parse_intel (str "source:ABCDEFGHIJKLMNOPQRSTUVWXYZ|source:xy|oops")).1 = 0 ∧
      cstr (parse_intel (str "source:ABCDEFGHIJKLMNOPQRSTUVWXYZ|source:xy|oops")).2.source
        = str "xy") := by
  refine ⟨?_, ?_, ?_, ?_, by decide, by decide⟩
  · refine parse_intel_buffer Intel.source KEY_SOURCE 19 ?_ rfl message
    intro t intel m
    have h := parse_intel_field_writes t intel m
    cases hp : parse_intel_field t intel m with
    | error e => rw [hp] at h; exact h.1
    | ok r => rw [hp] at h; exact h.1
  · refine parse_intel_buffer Intel.type KEY_TYPE 19 ?_ rfl message
    intro t intel m
    have h := parse_intel_field_writes t intel m
    cases hp : parse_intel_field t intel m with
    | error e => rw [hp] at h; exact h.2.1
    | ok r => rw [hp] at h; exact h.2.1
  · refine parse_intel_buffer Intel.data KEY_DATA 255 ?_ rfl message
    intro t intel m
    have h := parse_intel_field_writes t intel m
    cases hp : parse_intel_field t intel m with
    | error e => rw [hp] at h; exact h.2.2.1
    | ok r => rw [hp] at h; exact h.2.2.1
  · refine parse_intel_buffer Intel.location KEY_LOCATION 49 ?_ rfl message
    intro t intel m
    have h := parse_intel_field_writes t intel m
    cases hp : parse_intel_field t intel m with
    | error e => rw [hp] at h; exact h.2.2.2
    | ok r => rw [hp] at h; exact h.2.2.2

/-! ## The dispatcher -/

/-- When no `send` raises SIGPIPE, the loop calls `send` on exactly the actuator
slots, in slot order, and counts the calls that succeeded. -/
theorem send_loop_spec (payload : List Nat) (send_result : Nat → SendOutcome)
    (hno : ∀ i, send_result i ≠ SendOutcome.sigpipe) (cs : List Client) :
    ∀ (i : Nat) (issued : Int),
      (send_loop payload send_result cs i issued).2.1 =
        ((cs.enumFrom i).filter (fun p => actuator_slot p.2)).map
          (fun p => Send.mk p.1 payload (send_result p.1)) ∧
      (send_loop payload send_result cs i issued).1 =
        issued + (((send_loop payload send_result cs i issued).2.1.filter
          (fun s => decide (s.outcome = SendOutcome.ok))).length : Nat) ∧
      (send_loop payload send_result cs i issued).2.2 = false := by
  induction cs with
  | nil => intro i issued; simp [send_loop]
  | cons c cs ih =>
    intro i issued
    simp only [send_loop, List.enumFrom_cons]
    by_cases hc : (c.valid && (c.port == PORT_SILO || c.port == PORT_SUB)) = true
    · have ha : actuator_slot c = true := hc
      cases hs : send_result i with
      | ok =>
        obtain ⟨h1, h2, h3⟩ := ih (i + 1) (issued + 1)
        simp only [hc, if_true, List.filter_cons, ha, List.map_cons, h1, hs, true_and, h3,
          and_true]
        rw [h2, h1]
        simp only [List.filter_cons, decide_True, if_true, List.length_cons]
        push_cast
        omega
      | error =>
        obtain ⟨h1, h2, h3⟩ := ih (i + 1) issued
        simp only [hc, if_true, List.filter_cons, ha, List.map_cons, h1, hs, true_and, h3,
          and_true]
        rw [h2, h1]
        simp
      | sigpipe => exact absurd hs (hno i)
    · obtain ⟨h1, h2, h3⟩ := ih (i + 1) issued
      have ha : actuator_slot c = false := by simpa [actuator_slot] using hc
      simp only [hc, if_false, List.filter_cons, ha, Bool.false_eq_true]
      exact ⟨h1, h2, h3⟩

/-- When no `send` raises SIGPIPE, `send_command_to_clients` calls `send` on
exactly the slots that are valid and have the silo port (8081) or the submarine
port (8082), in slot order, each with the encrypted command as payload, also
after a `send` that returned -1; `commands_issued` grows by the number of calls
that succeeded, and the slot table, `client_count` and `threats_detected` are
unchanged. -/
theorem send_command_to_clients_without_sigpipe (location : List Nat)
    (send_result : Nat → SendOutcome) (sv : Server)
    (hno : ∀ i, send_result i ≠ SendOutcome.sigpipe) :
    (send_command_to_clients location send_result sv).2.1 =
      ((sv.clients.enum.filter (fun p => actuator_slot p.2)).map
        (fun p => Send.mk p.1 (cstr (caesar_encrypt (format_command location) BUFFER_SIZE))
          (send_result p.1))) ∧
    (send_command_to_clients location send_result sv).1.commands_issued =
      sv.commands_issued +
        (((send_command_to_clients location send_result sv).2.1.filter
          (fun s => decide (s.outcome = SendOutcome.ok))).length : Nat) ∧
    (send_command_to_clients location send_result sv).2.2 = false ∧
    (send_command_to_clients location send_result sv).1.clients = sv.clients ∧
    (send_command_to_clients location send_result sv).1.client_count = sv.client_count ∧
    (send_command_to_clients location send_result sv).1.threats_detected
      = sv.threats_detected := by
  obtain ⟨h1, h2, h3⟩ := send_loop_spec
    (cstr (caesar_encrypt (format_command location) BUFFER_SIZE)) send_result hno sv.clients 0
    sv.commands_issued
  exact ⟨h1, h2, h3, rfl, rfl, rfl⟩

/-- C15 (the code at the failing input). The silo (slot 0) and the submarine
(slot 1) are registered and valid, and the `send` to the silo raises SIGPIPE
because the silo has closed its connection.  The process is terminated in that
call: the list of calls of `send` ends with slot 0, the valid submarine slot is
never sent the command, and `commands_issued` stays 0.  When the same `send`
returns -1 instead, the loop goes on and the submarine is sent the command. -/
theorem send_command_to_clients_stops_at_sigpipe :
    actuator_slot (Client.mk 5 [] 8082 true) = true ∧
    (send_command_to_clients (str "Arctic")
      (fun i => if i = 0 then SendOutcome.sigpipe else SendOutcome.ok)
      (Server.mk [Client.mk 4 [] 8081 true, Client.mk 5 [] 8082 true,
        Client.mk 6 [] 8083 true, Client.mk 0 [] 0 false] 3 0 0)).2.1 =
      [Send.mk 0 (str "frppdqg:odxqfk|wdujhw:Dufwlf") SendOutcome.sigpipe] ∧
    (send_command_to_clients (str "Arctic")
      (fun i => if i = 0 then SendOutcome.sigpipe else SendOutcome.ok)
      (Server.mk [Client.mk 4 [] 8081 true, Client.mk 5 [] 8082 true,
        Client.mk 6 [] 8083 true, Client.mk 0 [] 0 false] 3 0 0)).2.2 = true ∧
    (send_command_to_clients (str "Arctic")
      (fun i => if i = 0 then SendOutcome.sigpipe else SendOutcome.ok)
      (Server.mk [Client.mk 4 [] 8081 true, Client.mk 5 [] 8082 true,
        Client.mk 6 [] 8083 true, Client.mk 0 [] 0 false] 3 0 0)).1.commands_issued = 0 ∧
    (send_command_to_clients (str "Arctic")
      (fun i => if i = 0 then SendOutcome.error else SendOutcome.ok)
      (Server.mk [Client.mk 4 [] 8081 true, Client.mk 5 [] 8082 true,
        Client.mk 6 [] 8083 true, Client.mk 0 [] 0 false] 3 0 0)).2.1 =
      [Send.mk 0 (str "frppdqg:odxqfk|wdujhw:Dufwlf") SendOutcome.error,
        Send.mk 1 (str "frppdqg:odxqfk|wdujhw:Dufwlf") SendOutcome.ok] ∧
    (send_command_to_clients (str "Arctic")
      (fun i => if i = 0 then SendOutcome.error else SendOutcome.ok)
      (Server.mk [Client.mk 4 [] 8081 true, Client.mk 5 [] 8082 true,
        Client.mk 6 [] 8083 true, Client.mk 0 [] 0 false] 3 0 0)).1.commands_issued = 1 := by
  decide

/-! ## The handler: a report that dispatches -/

/-- What the handler does with an accepted report of a sensor whose
`threat_level` is above 70, when no `send` raises SIGPIPE. -/
theorem handle_message_dispatch (buffer : List Nat) (send_result : Nat → SendOutcome)
    (sv : Server) (hno : ∀ i, send_result i ≠ SendOutcome.sigpipe)
    (hparse : (parse_intel (caesar_decrypt buffer BUFFER_SIZE)).1 ≠ 0)
    (hsrc : cstr (parse_intel (caesar_decrypt buffer BUFFER_SIZE)).2.source = str "Radar" ∨
      cstr (parse_intel (caesar_decrypt buffer BUFFER_SIZE)).2.source = str "Satellite")
    (hgt : (parse_intel (caesar_decrypt buffer BUFFER_SIZE)).2.threat_level > 70) :
    (handle_message buffer send_result sv).server.threats_detected = sv.threats_detected + 1 ∧
    (handle_message buffer send_result sv).sends =
      ((sv.clients.enum.filter (fun p => actuator_slot p.2)).map
        (fun p => Send.mk p.1
          (cstr (caesar_encrypt (str "command:launch|target:" ++
            cstr (parse_intel (caesar_decrypt buffer BUFFER_SIZE)).2.location) BUFFER_SIZE))
          (send_result p.1))) ∧
    (handle_message buffer send_result sv).server.commands_issued =
      sv.commands_issued +
        (((handle_message buffer send_result sv).sends.filter
          (fun s => decide (s.outcome = SendOutcome.ok))).length : Nat) ∧
    (handle_message buffer send_result sv).killed = false ∧
    (handle_message buffer send_result sv).server.clients = sv.clients := by
  have hs : (streq (parse_intel (caesar_decrypt buffer BUFFER_SIZE)).2.source (str "Radar") ∨
      streq (parse_intel (caesar_decrypt buffer BUFFER_SIZE)).2.source (str "Satellite")) := by
    rcases hsrc with h | h
    · exact Or.inl ((streq_iff _ _).2 (h.trans cstr_str_radar.symm))
    · exact Or.inr ((streq_iff _ _).2 (h.trans cstr_str_satellite.symm))
  have hfmt := format_command_eq (parse_intel (caesar_decrypt buffer BUFFER_SIZE)).2.location
    (by
      have h1 := cstr_length_le (parse_intel (caesar_decrypt buffer BUFFER_SIZE)).2.location
      have h2 := (parse_intel_sized (caesar_decrypt buffer BUFFER_SIZE)).2.2.2
      omega)
  rw [handle_message_parsed buffer send_result sv hparse, if_pos ⟨hgt, hs⟩]
  obtain ⟨h1, h2, h3⟩ := send_loop_spec
    (cstr (caesar_encrypt
      (format_command (parse_intel (caesar_decrypt buffer BUFFER_SIZE)).2.location) BUFFER_SIZE))
    send_result hno sv.clients 0 sv.commands_issued
  rw [hfmt] at h1 h2 h3
  refine ⟨rfl, ?_, ?_, ?_, rfl⟩
  · simp only [send_command_to_clients, hfmt]
    exact h1
  · simp only [send_command_to_clients, hfmt]
    exact h2
  · simp only [send_command_to_clients, hfmt]
    exact h3

/-- C16 (the code at the failing input). The handler receives the report whose
decoded text is `source:Radar|type:Air|data:Bomber|threat_level:85|location:Arctic`
while the silo (slot 0) and the submarine (slot 1) are registered and valid, and
the `send` to the silo raises SIGPIPE.  `threats_detected` is incremented and the
dispatch is called with `Arctic`, but the process is terminated in the first
`send`: the valid submarine slot is never sent
`frppdqg:odxqfk|wdujhw:Dufwlf`, and `commands_issued` stays 0. -/
theorem sensor_report_killed_by_sigpipe :
    cstr (caesar_decrypt (cstr (caesar_encrypt
      (str "source:Radar|type:Air|data:Bomber|threat_level:85|location:Arctic") BUFFER_SIZE))
      BUFFER_SIZE) = str "source:Radar|type:Air|data:Bomber|threat_level:85|location:Arctic" ∧
    actuator_slot (Client.mk 5 [] 8082 true) = true ∧
    (handle_message (cstr (caesar_encrypt
        (str "source:Radar|type:Air|data:Bomber|threat_level:85|location:Arctic") BUFFER_SIZE))
      (fun i => if i = 0 then SendOutcome.sigpipe else SendOutcome.ok)
      (Server.mk [Client.mk 4 [] 8081 true, Client.mk 5 [] 8082 true,
        Client.mk 6 [] 8083 true, Client.mk 0 [] 0 false] 3 0 0)) =
      Step.mk (Server.mk [Client.mk 4 [] 8081 true, Client.mk 5 [] 8082 true,
        Client.mk 6 [] 8083 true, Client.mk 0 [] 0 false] 3 1 0) true (some (str "Arctic"))
        [Send.mk 0 (str "frppdqg:odxqfk|wdujhw:Dufwlf") SendOutcome.sigpipe] true := by
  decide

namespace Silo

theorem parse_command_field_empty_target (c t : List Nat) :
    parse_command_field (str "target:") c t = none := by
  have h : strchr (str "target:") 58 = some [58] := by decide
  unfold parse_command_field
  rw [h]
  simp

end Silo

/-- C9 (the code at the failing input). The report
`source:Radar|source:Radar|source:Radar|source:Radar|threat_level:85` has no
`location` field; `parse_intel` accepts it and stores the empty location.  The
handler dispatches it, the command is formatted as `command:launch|target:`,
and the silo's `parse_command` on the decrypted bytes returns 0, whatever its
buffers hold: the command is not recovered. -/
theorem empty_location_command_rejected (command target : List Nat) :
    (parse_intel
      (str "source:Radar|source:Radar|source:Radar|source:Radar|threat_level:85")).1 = 1 ∧
    cstr (parse_intel
      (str "source:Radar|source:Radar|source:Radar|source:Radar|threat_level:85")).2.location
      = [] ∧
    (handle_message (cstr (caesar_encrypt
        (str "source:Radar|source:Radar|source:Radar|source:Radar|threat_level:85")
        BUFFER_SIZE)) (fun _ => SendOutcome.ok)
      (Server.mk [Client.mk 4 [] 8081 true, Client.mk 5 [] 8082 true,
        Client.mk 6 [] 8083 true, Client.mk 0 [] 0 false] 3 0 0)).dispatched = some [] ∧
    (handle_message (cstr (caesar_encrypt
        (str "source:Radar|source:Radar|source:Radar|source:Radar|threat_level:85")
        BUFFER_SIZE)) (fun _ => SendOutcome.ok)
      (Server.mk [Client.mk 4 [] 8081 true, Client.mk 5 [] 8082 true,
        Client.mk 6 [] 8083 true, Client.mk 0 [] 0 false] 3 0 0)).sends =
      [Send.mk 0 (cstr (caesar_encrypt (str "command:launch|target:") BUFFER_SIZE))
          SendOutcome.ok,
        Send.mk 1 (cstr (caesar_encrypt (str "command:launch|target:") BUFFER_SIZE))
          SendOutcome.ok] ∧
    format_command (parse_intel
      (str "source:Radar|source:Radar|source:Radar|source:Radar|threat_level:85")).2.location
      = str "command:launch|target:" ∧
    (Silo.parse_command
      (Silo.caesar_decrypt (cstr (caesar_encrypt (str "command:launch|target:") BUFFER_SIZE))
        BUFFER_SIZE) command target).1 = 0 := by
  refine ⟨by decide, by decide, by decide, by decide, by decide, ?_⟩
  have htoks : strtok_all (cstr (Silo.caesar_decrypt
      (cstr (caesar_encrypt (str "command:launch|target:") BUFFER_SIZE)) BUFFER_SIZE)) 124 =
      [field Silo.KEY_COMMAND (str "launch"), str "target:"] := by decide
  unfold Silo.parse_command
  rw [htoks]
  simp only [Silo.parse_command_loop]
  rw [Silo.parse_command_field_field Silo.KEY_COMMAND (str "launch") _ _ (by decide) (by decide)
    (by decide), if_pos rfl]
  simp only [Silo.parse_command_field_empty_target]

end NuclearSim
